import Mathlib

/-!
Verification development for the nixpkgs-review pipeline
(`nixpkgs_review/nix.py`, `nixpkgs_review/report.py`,
`nixpkgs_review/hydracheck.py`).

The Python sources are shallowly embedded: pure logic is translated to
executable Lean definitions; external effects (the nix backend, the
filesystem, the network, filter-stage subprocesses) are abstracted as
explicit oracle parameters.  Python strings are modelled by `String`,
dictionaries by association lists in insertion order (with later
assignments overwriting in place, as Python dicts do), and exceptions by
`Except`.
-/

/-! ## Character-list string helpers

Python string primitives used by the sources, implemented over `List Char`
so that everything reduces by evaluation. -/

/-- Python `pat in s` (substring containment) on character lists. -/
def isInfixL (pat : List Char) : List Char → Bool
  | [] => pat.isEmpty
  | c :: cs => pat.isPrefixOf (c :: cs) || isInfixL pat cs

/-- Python `pat in s` for strings. -/
def substrIn (s pat : String) : Bool := isInfixL pat.data s.data

/-- Python `s.startswith(pre)`. -/
def startsWithL (s pre : String) : Bool := pre.data.isPrefixOf s.data

/-- Python `s.endswith(suf)`. -/
def endsWithL (s suf : String) : Bool := suf.data.isSuffixOf s.data

/-- Python `s.strip()`: drop whitespace from both ends. -/
def stripL (s : String) : String :=
  ⟨((s.data.dropWhile Char.isWhitespace).reverse.dropWhile Char.isWhitespace).reverse⟩

/-- Python `s.lstrip(cs)` where `cs` is given as a character predicate. -/
def lstripChars (p : Char → Bool) (s : String) : String := ⟨s.data.dropWhile p⟩

/-- Python `s.rstrip(cs)` where `cs` is given as a character predicate. -/
def rstripChars (p : Char → Bool) (s : String) : String :=
  ⟨(s.data.reverse.dropWhile p).reverse⟩

/-- Split a character list at every character satisfying `p`, keeping
empty pieces (the behaviour of Python `s.split(sep)` for a one-character
separator). -/
def splitCharAux (p : Char → Bool) : List Char → List Char → List String
  | acc, [] => [String.mk acc.reverse]
  | acc, c :: cs =>
    if p c then String.mk acc.reverse :: splitCharAux p [] cs
    else splitCharAux p (c :: acc) cs

/-- Python `s.splitlines()` for `\n`-separated text: like splitting on the
newline character, except that a trailing newline does not produce a final
empty line. -/
def splitlines (s : String) : List String :=
  let parts := splitCharAux (fun c => c = '\n') [] s.data
  match parts.getLast? with
  | some "" => parts.dropLast
  | _ => parts

/-- Python `s.split()` (no argument): split on runs of whitespace,
discarding empty pieces. -/
def splitWs (s : String) : List String :=
  (splitCharAux (fun c => c.isWhitespace) [] s.data).filter (fun t => t ≠ "")

/-- Python `s.replace("\n", " ")` (single-character pattern). -/
def replaceNlBySpace (s : String) : String :=
  ⟨s.data.map (fun c => if c = '\n' then ' ' else c)⟩

/-! ## Association-list model of Python dicts

A Python dict is an association list in key-insertion order: assigning to
an existing key overwrites its value in place, assigning to a fresh key
appends. -/

/-- Dict lookup: `m.get(k)` / `m[k]`. -/
def lookupA {α : Type} (m : List (String × α)) (k : String) : Option α :=
  (m.find? (fun kv => kv.1 == k)).map (·.2)

/-- Dict assignment `m[k] = v`. -/
def upsertA {α : Type} : List (String × α) → String → α → List (String × α)
  | [], k, v => [(k, v)]
  | kv :: rest, k, v =>
    if kv.1 = k then (k, v) :: rest else kv :: upsertA rest k v

/-- Dict deletion (used by `dict.pop`). -/
def eraseKeyA {α : Type} : List (String × α) → String → List (String × α)
  | [], _ => []
  | kv :: rest, k => if kv.1 = k then rest else kv :: eraseKeyA rest k

/-! ## Data model: `Attr` (nix.py) -/

/-- `nix.Attr`, the unit of work.  The Python field `exists` is spelled
`exists_` because `exists` is a Lean keyword.  The derived lazily-cached
field `_path_verified` (a call to `nix-store --verify-path`) is abstracted
by the `verified` oracle passed to `Attr.was_build`. -/
structure Attr where
  name : String
  exists_ : Bool
  broken : Bool
  blacklisted : Bool
  skipped : Bool
  path : Option String
  drv_path : Option String
  position : Option String
  log_url : Option String := none
  check_report : List String := []
  aliases : List String := []
  timed_out : Bool := false
  build_err_msg : Option String := none
deriving DecidableEq, Repr

/-- `Attr.was_build`: `False` when there is no output path or the target
was skipped, otherwise the (memoised) result of asking the store to verify
the path, abstracted as the `verified` oracle. -/
def Attr.was_build (verified : String → Bool) (a : Attr) : Bool :=
  match a.path with
  | none => false
  | some p => if a.skipped then false else verified p

/-! ## Filter pipeline (nix.py: `pre_build_filter`, `postprocess`) -/

/-- The colon-separated stage list read from a pipeline environment
variable; empty pieces are discarded.  An unset variable is modelled by
the empty string (`os.environ.get(var, "")`). -/
def parseStages (env : String) : List String :=
  (splitCharAux (fun c => c = ':') [] env.data).filter (fun cmd => cmd ≠ "")

/-- `nix.pre_build_filter`: run each configured stage in order, feeding
the serialized target list through it.  The subprocess invocation and
JSON round-trip of a stage command `cmd` is abstracted as `sem cmd`. -/
def pre_build_filter (sem : String → List Attr → List Attr) (env : String)
    (attrs : List Attr) : List Attr :=
  (parseStages env).foldl (fun as cmd => sem cmd as) attrs

/-- `nix.postprocess`: like `pre_build_filter`, but each stage also
receives the list of derivation paths that were built. -/
def postprocess (sem : String → List Attr → List String → List Attr) (env : String)
    (attrs : List Attr) (drvpaths_built : List String) : List Attr :=
  (parseStages env).foldl (fun as cmd => sem cmd as drvpaths_built) attrs

/-! ## Target Resolver (nix.py: `_nix_eval_filter`) -/

/-- One record of the evaluation JSON produced by the nix backend for a
requested attribute name. -/
structure Props where
  exists_ : Bool
  broken : Bool
  path : Option String
  drvPath : Option String
  position : Option String
deriving DecidableEq, Repr

/-- The fixed denylist of known-problematic attribute names
(workaround for ofborg issue 269). -/
def blacklist : List String :=
  [ "tests.nixos-functions.nixos-test",
    "tests.nixos-functions.nixosTest-test",
    "tests.writers",
    "appimage-run-tests" ]

/-- The `Attr` constructed from one evaluation record.  `relpath`
abstracts `os.path.relpath(position, nixpkgs_path)`. -/
def mkEvalAttr (relpath : String → String) (name : String) (props : Props) : Attr :=
  { name := name
    exists_ := props.exists_
    broken := props.broken
    blacklisted := name ∈ blacklist
    skipped := false
    path := props.path
    drv_path := props.drvPath
    position := props.position.map relpath }

/-- State of the `_nix_eval_filter` loop: the `attr_by_path` dict
(output path → representative Attr) and the `broken` list of attrs
without an output path. -/
structure EvalState where
  byPath : List (String × Attr)
  broken : List Attr
deriving Repr

/-- One iteration of the `_nix_eval_filter` loop: attrs without a path
are appended to `broken`; attrs whose path is new become the champion for
that path; otherwise the shorter of champion and newcomer survives (ties
keep the champion) and records the loser as an alias. -/
def evalStep (relpath : String → String) (st : EvalState) (e : String × Props) :
    EvalState :=
  let attr := mkEvalAttr relpath e.1 e.2
  match e.2.path with
  | none => { st with broken := st.broken ++ [attr] }
  | some p =>
    match lookupA st.byPath p with
    | none => { st with byPath := st.byPath ++ [(p, attr)] }
    | some other =>
      if other.name.length > attr.name.length then
        { st with byPath :=
            upsertA st.byPath p { attr with aliases := attr.aliases ++ [other.name] } }
      else
        { st with byPath :=
            upsertA st.byPath p { other with aliases := other.aliases ++ [e.1] } }

/-- `nix._nix_eval_filter` (leading underscore dropped): deduplicate the
evaluation result by output path and pass through attrs without one.
`json` is the backend JSON as a key/value list in iteration order. -/
def nix_eval_filter (relpath : String → String) (json : List (String × Props)) :
    List Attr :=
  let st := json.foldl (evalStep relpath) ⟨[], []⟩
  st.byPath.map (·.2) ++ st.broken

/-! ## Dry-run plan parser (nix.py: `nix_build_dry`) -/

/-- The section of the dry-run plan most recently announced by a header
line. -/
inductive DrySection
  | fetch
  | build
  | ignore
deriving DecidableEq, Repr

/-- A violation of the dry-run plan grammar.  `unrecognized` is the
`RuntimeError("dry-run parsing failed: ...")` raised on a non-blank line
that is neither a header nor a store path; `pathBeforeHeader` is the
`UnboundLocalError` hit when a store-path line precedes every header
(`cur` is still unbound). -/
inductive PlanParseError
  | unrecognized (line : String)
  | pathBeforeHeader (line : String)
deriving DecidableEq, Repr

/-- State of the dry-run parsing loop. -/
structure DryState where
  to_fetch : List String
  to_build : List String
  ignore : List String
  cur : Option DrySection
deriving DecidableEq, Repr

/-- One iteration of the `nix_build_dry` parsing loop, in the exact
order of the Python `if`/`elif` chain. -/
def dryStep (st : DryState) (rawLine : String) : Except PlanParseError DryState :=
  let line := stripL rawLine
  if substrIn line "this path will be fetched" then
    .ok { st with cur := some .fetch }
  else if substrIn line "paths will be fetched" then
    .ok { st with cur := some .fetch }
  else if substrIn line "derivations will be built" then
    .ok { st with cur := some .build }
  else if substrIn line "derivation will be built" then
    .ok { st with cur := some .build }
  else if substrIn line "don\x27t know how to build these paths" then
    .ok { st with cur := some .ignore }
  else if startsWithL line "/nix/store" then
    match st.cur with
    | none => .error (.pathBeforeHeader line)
    | some .fetch => .ok { st with to_fetch := st.to_fetch ++ [line] }
    | some .build => .ok { st with to_build := st.to_build ++ [line] }
    | some .ignore => .ok { st with ignore := st.ignore ++ [line] }
  else if line ≠ "" then
    .error (.unrecognized line)
  else
    .ok st

/-- Run the dry-run parsing loop over a list of lines. -/
def dryRun : DryState → List String → Except PlanParseError DryState
  | st, [] => .ok st
  | st, l :: ls =>
    match dryStep st l with
    | .error e => .error e
    | .ok st' => dryRun st' ls

/-- The parsing part of `nix.nix_build_dry`: interpret the stderr text of
`nix-store --realize --dry-run` and return `(to_build, to_fetch)`.  The
two subprocess invocations are abstracted away; their textual output is
the argument. -/
def nix_build_dry_parse (stderrText : String) :
    Except PlanParseError (List String × List String) :=
  (dryRun ⟨[], [], [], none⟩ (splitlines stderrText)).map
    (fun st => (st.to_build, st.to_fetch))

/-! ## Diagnostic correlation (nix.py: `nix_build`, scanning loop) -/

/-- `StopIteration`: a diagnostic line matched a trigger substring but
contained no `/nix/store` token for `next(...)` to return. -/
inductive DiagError
  | noStoreToken (line : String)
deriving DecidableEq, Repr

/-- The trigger substring for dependency failures,
`"dependencies couldn't be built"`. -/
def depPat : String := "dependencies couldn\x27t be built"

/-- The trigger substring for timeouts, `"timed out after"`. -/
def toutPat : String := "timed out after"

/-- Token extraction for a dependency-failure line:
`next(item for item in line.split() if "/nix/store" in item)
   .lstrip("'").rstrip(":'")`. -/
def storeTokenDep (line : String) : Option String :=
  ((splitWs line).find? (fun item => substrIn item "/nix/store")).map
    (fun t => rstripChars (fun c => c = ':' || c = '\x27')
      (lstripChars (fun c => c = '\x27') t))

/-- Token extraction for a timeout line:
`next(item for item in line.split() if "/nix/store" in item)
   .lstrip("'").rstrip("'")`. -/
def storeTokenTout (line : String) : Option String :=
  ((splitWs line).find? (fun item => substrIn item "/nix/store")).map
    (fun t => rstripChars (fun c => c = '\x27')
      (lstripChars (fun c => c = '\x27') t))

/-- One iteration of the diagnostic scanning loop.  The two `if`s in the
Python body are independent: a line may both record a dependency failure
and a timeout. -/
def scanStep (deps : List String) (touts : List (String × String)) (line : String) :
    Except DiagError (List String × List (String × String)) :=
  if substrIn line depPat then
    match storeTokenDep line with
    | none => .error (.noStoreToken line)
    | some tok =>
      if substrIn line toutPat then
        match storeTokenTout line with
        | none => .error (.noStoreToken line)
        | some tok2 => .ok (deps ++ [tok], upsertA touts tok2 line)
      else .ok (deps ++ [tok], touts)
  else
    if substrIn line toutPat then
      match storeTokenTout line with
      | none => .error (.noStoreToken line)
      | some tok2 => .ok (deps, upsertA touts tok2 line)
    else .ok (deps, touts)

/-- The diagnostic scanning loop: accumulate `has_failed_dependencies`
(a list) and `has_timeout` (a dict from derivation path to the timeout
line; a later line for the same path overwrites). -/
def scanLines : List String → List (String × String) → List String →
    Except DiagError (List String × List (String × String))
  | deps, touts, [] => .ok (deps, touts)
  | deps, touts, l :: ls =>
    match scanStep deps touts l with
    | .error e => .error e
    | .ok (d', t') => scanLines d' t' ls

/-- The index of the `Attr` owning a derivation path, i.e. the entry of
`drv_path_to_attr = {a.drv_path: a for a in attrs}`: with duplicate
derivation paths the last occurrence wins, as in a Python dict
comprehension. -/
def lastDrvIdx : List Attr → String → Option Nat
  | [], _ => none
  | a :: as, d =>
    match lastDrvIdx as d with
    | some j => some (j + 1)
    | none => if a.drv_path = some d then some 0 else none

/-- Replace the element at an index by the image of an update function. -/
def setAt : List Attr → Nat → (Attr → Attr) → List Attr
  | [], _, _ => []
  | a :: as, 0, f => f a :: as
  | a :: as, n + 1, f => a :: setAt as n f

/-- The annotation a timeout diagnostic applies to its owning attr. -/
def toutUpd (line : String) (a : Attr) : Attr :=
  { a with build_err_msg := some line, timed_out := true }

/-- One iteration of the first correlation loop: the attr owning the
timed-out derivation (if any) gets the timeout line as error text and
`timed_out := True`. -/
def applyToutStep (as : List Attr) (dl : String × String) : List Attr :=
  match lastDrvIdx as dl.1 with
  | some i => setAt as i (toutUpd dl.2)
  | none => as

/-- The first correlation loop over the `has_timeout` dict. -/
def applyTouts (attrs : List Attr) (touts : List (String × String)) : List Attr :=
  touts.foldl applyToutStep attrs

/-- The annotation a dependency failure applies to its owning attr: the
whole stderr becomes the error text, and if any timeout occurred in the
run the attr is also speculatively marked as timed out. -/
def depUpd (stderr : String) (anyTimeout : Bool) (a : Attr) : Attr :=
  { a with build_err_msg := some stderr, timed_out := anyTimeout || a.timed_out }

/-- One iteration of the second correlation loop. -/
def applyDepStep (stderr : String) (anyTimeout : Bool) (as : List Attr) (d : String) :
    List Attr :=
  match lastDrvIdx as d with
  | some i => setAt as i (depUpd stderr anyTimeout)
  | none => as

/-- The second correlation loop over `has_failed_dependencies`. -/
def applyDeps (stderr : String) (anyTimeout : Bool) (attrs : List Attr)
    (deps : List String) : List Attr :=
  deps.foldl (applyDepStep stderr anyTimeout) attrs

/-- The diagnostic-correlation section of `nix.nix_build`: scan the
captured stderr and annotate the attrs. -/
def nix_build_correlate (stderr : String) (attrs : List Attr) :
    Except DiagError (List Attr) :=
  match scanLines [] [] (splitlines stderr) with
  | .error e => .error e
  | .ok (deps, touts) =>
    .ok (applyDeps stderr (!touts.isEmpty) (applyTouts attrs touts) deps)

/-! ## Build driver (nix.py: `nix_build`) -/

/-- Instrumentation of the build driver: each application of the
pre-build filter pipeline or the post-build checks pipeline is recorded
as one event. -/
inductive BuildEvent
  | preApplied
  | postApplied
deriving DecidableEq, Repr

/-- A fatal error inside `nix_build`. -/
inductive NixBuildError
  | plan (e : PlanParseError)
  | diag (e : DiagError)
deriving DecidableEq, Repr

/-- The predicate selecting the attrs that are actually built:
`not (attr.broken or attr.blacklisted or attr.skipped)`. -/
def buildWorthy (a : Attr) : Bool := !(a.broken || a.blacklisted || a.skipped)

/-- `nix.nix_build`, with its external collaborators abstracted:
`evalJson` is the backend evaluation response consumed by `nix_eval`,
`dryStderr` the textual dry-run plan, `buildStderr` the diagnostic stream
captured from the build, and `preSem`/`postSem` the filter-stage
subprocesses.  Returns the trace of pipeline applications together with
the result (or the fatal error that aborted the run).  Faithful control
flow: an empty requested set returns nothing; when no resolved target
survives the pre-build filter as buildable, the function returns early
and the post-build pipeline is never applied. -/
def nix_build (attr_names : List String) (relpath : String → String)
    (evalJson : List (String × Props))
    (preEnv postEnv : String)
    (preSem : String → List Attr → List Attr)
    (postSem : String → List Attr → List String → List Attr)
    (dryStderr buildStderr : String) :
    List BuildEvent × Except NixBuildError (List Attr) :=
  if attr_names.isEmpty then ([], .ok [])
  else
    let attrs0 := nix_eval_filter relpath evalJson
    let attrs1 := pre_build_filter preSem preEnv attrs0
    let filtered := (attrs1.filter buildWorthy).map (·.name)
    if filtered.isEmpty then ([.preApplied], .ok attrs1)
    else
      match nix_build_dry_parse dryStderr with
      | .error e => ([.preApplied], .error (.plan e))
      | .ok (drvs_to_build, _drvs_to_fetch) =>
        match nix_build_correlate buildStderr attrs1 with
        | .error e => ([.preApplied], .error (.diag e))
        | .ok attrs2 =>
          ([.preApplied, .postApplied],
           .ok (postprocess postSem postEnv attrs2 drvs_to_build))

/-! ## CI cross-referencing (hydracheck.py) -/

/-- The per-target build status assembled by `_parse_build_html`
(Python: a dict; keys absent in a branch are `none` here). -/
structure BuildStatus where
  success : Bool
  status : String
  timestamp : Option String := none
  build_id : Option String := none
  build_url : Option String := none
  name : Option String := none
  arch : Option String := none
deriving DecidableEq, Repr

/-- One `<tr>` of the status page's result table, as seen through the
BeautifulSoup queries the code performs: either the five `<td>` cells the
code unpacks (status icon title, build link text, build link href,
timestamp, job name, architecture), or a single `<td>` holding a link. -/
inductive HydraRow
  | cells5 (statusTitle build_id build_url timestamp name arch : String)
  | cell1 (href : String)
deriving DecidableEq, Repr

/-- The status page as seen through the BeautifulSoup queries of
`_parse_build_html`: the optional `<tbody>` with its rows, and the text
of the first `<div class="alert">` (`none` when no such element exists). -/
structure HtmlDoc where
  tbody : Option (List HydraRow)
  alert : Option String
deriving DecidableEq, Repr

/-- An exception escaping `_parse_build_html`: `attributeError` when the
page has neither a result table nor an alert element (`None.text`),
`valueError` when a row has an unexpected cell count and its single link
does not end in `/all`, `runtimeError` when the table has no usable row
(the bare `raise RuntimeError()` after the loop). -/
inductive HydraHtmlError
  | attributeError
  | valueError
  | runtimeError
deriving DecidableEq, Repr

/-- The row loop of `_parse_build_html`: the first five-cell row
determines the result; a one-cell row linking to `.../all` is skipped;
anything else raises. -/
def parseRows : List HydraRow → Except HydraHtmlError BuildStatus
  | [] => .error .runtimeError
  | .cells5 statusTitle build_id build_url timestamp name arch :: _ =>
    .ok { success := statusTitle == "Succeeded"
          status := statusTitle
          timestamp := some timestamp
          build_id := some build_id
          build_url := some build_url
          name := some name
          arch := some arch }
  | .cell1 href :: rest =>
    if endsWithL href "/all" then parseRows rest else .error .valueError

/-- `hydracheck._parse_build_html`: no `<tbody>` means the package was
not evaluated upstream — the alert text (or a fallback when it is empty)
becomes the status and `success` is `False`; otherwise the result table
is scanned. -/
def parse_build_html (doc : HtmlDoc) : Except HydraHtmlError BuildStatus :=
  match doc.tbody with
  | none =>
    match doc.alert with
    | none => .error .attributeError
    | some txt =>
      let t := replaceNlBySpace txt
      .ok { success := false
            status := if t = "" then
                "Unknown Hydra Error, check the package with --url to find out what went wrong"
              else t }
  | some rows => parseRows rows

/-- The outcome of one worker-pool future for one target, in completion
order: `collected` models a 200 response whose body was returned together
with the attr name; `missing` models a future that returned `None`
(non-200 status or `HTTPError`) or raised (any network error, caught by
the `except Exception` around `future.result()`). -/
inductive FetchOutcome
  | collected (attr_name : String) (page : HtmlDoc)
  | missing
deriving DecidableEq, Repr

/-- The collection-and-parse loop of `fetch_hydra_build_status`: `None`
bodies are skipped, collected bodies are parsed into `parsed_responses`
(a dict keyed by attr name).  A parse exception propagates and aborts the
whole batch. -/
def fetchLoop (acc : List (String × BuildStatus)) :
    List FetchOutcome → Except HydraHtmlError (List (String × BuildStatus))
  | [] => .ok acc
  | .missing :: rest => fetchLoop acc rest
  | .collected n page :: rest =>
    match parse_build_html page with
    | .error e => .error e
    | .ok st => fetchLoop (upsertA acc n st) rest

/-- `hydracheck.fetch_hydra_build_status`, with the worker pool
abstracted: `outcomes` lists the futures' results in completion order. -/
def fetch_hydra_build_status (outcomes : List FetchOutcome) :
    Except HydraHtmlError (List (String × BuildStatus)) :=
  fetchLoop [] outcomes

/-! ## Report Compiler (report.py) -/

/-- The PR metadata the report reads (`pr_data["number"]`,
`pr_data["head"]["sha"]`). -/
structure PrData where
  number : Nat
  head_sha : String
deriving DecidableEq, Repr

/-- The dict `parsed_responses` returned by the (abstracted) Hydra fetch
over the failed attrs: one entry per failed name for which the per-name
oracle `hydra` has data, in `failed` order (the actual dict is filled in
future-completion order; only entry membership is relied upon below). -/
def hydraReportStep (hydra : String → Option BuildStatus)
    (acc : List (String × BuildStatus)) (a : Attr) : List (String × BuildStatus) :=
  match hydra a.name with
  | some st => upsertA acc a.name st
  | none => acc

def hydraReports (hydra : String → Option BuildStatus) (failed : List Attr) :
    List (String × BuildStatus) :=
  failed.foldl (hydraReportStep hydra) []

/-- The dict comprehension `name2attr = {a.name: a for a in failed}`. -/
def name2attrOf (failed : List Attr) : List (String × Attr) :=
  failed.foldl (fun m a => upsertA m a.name a) []

/-- One iteration of the partition loop of `Report.get_hydra_build_status`:
a non-success report pops its attr out of `name2attr` and appends it to
`failed_existing`.  In Python a report key absent from `name2attr` would
raise `KeyError`; that case is unreachable because every report key names
a failed attr, and is modelled as a no-op. -/
def popStep (st : List (String × Attr) × List Attr) (nr : String × BuildStatus) :
    List (String × Attr) × List Attr :=
  if nr.2.success then st
  else
    match lookupA st.1 nr.1 with
    | some a => (eraseKeyA st.1 nr.1, st.2 ++ [a])
    | none => st

/-- The partition loop over all reports. -/
def popLoop (m : List (String × Attr)) (rs : List (String × BuildStatus)) :
    List (String × Attr) × List Attr :=
  rs.foldl popStep (m, [])

/-- `Report.get_hydra_build_status`, with the network fetch abstracted as
the per-name oracle `hydra` (`none` = no upstream data for that name,
matching a future that failed or a name absent from `parsed_responses`):
every non-success report pops its attr into `failed_existing`, the
attrs left in `name2attr` become `failed_new`. -/
def get_hydra_build_status (hydra : String → Option BuildStatus)
    (failed : List Attr) : List Attr × List Attr :=
  let st := popLoop (name2attrOf failed) (hydraReports hydra failed)
  (st.1.map (·.2), st.2)

/-- The state of the classification loop in `Report.__init__`: one list
per outcome bucket, plus the intermediate `failed` list that is later
partitioned by the CI cross-reference. -/
structure ClassState where
  skipped : List Attr := []
  broken : List Attr := []
  timed_out : List Attr := []
  failed : List Attr := []
  non_existant : List Attr := []
  blacklisted : List Attr := []
  tests : List Attr := []
  built : List Attr := []
deriving DecidableEq, Repr

/-- One iteration of the classification loop: the `if`/`elif` chain of
`Report.__init__`, first match wins. -/
def classifyStep (verified : String → Bool) (st : ClassState) (a : Attr) :
    ClassState :=
  if a.broken then { st with broken := st.broken ++ [a] }
  else if a.blacklisted then { st with blacklisted := st.blacklisted ++ [a] }
  else if a.skipped then { st with skipped := st.skipped ++ [a] }
  else if a.timed_out then { st with timed_out := st.timed_out ++ [a] }
  else if !a.exists_ then { st with non_existant := st.non_existant ++ [a] }
  else if startsWithL a.name "nixosTests." then { st with tests := st.tests ++ [a] }
  else if !a.was_build verified then { st with failed := st.failed ++ [a] }
  else { st with built := st.built ++ [a] }

/-- `report.Report`: the classified buckets and the advisory strings.
`check_reports` models the Python `set`; its iteration order is
arbitrary, so it is kept as a deduplicated list in first-insertion
order. -/
structure Report where
  system : String
  attrs : List Attr
  pr_data : Option PrData
  skipped : List Attr
  broken : List Attr
  timed_out : List Attr
  failed_new : List Attr
  failed_existing : List Attr
  non_existant : List Attr
  blacklisted : List Attr
  tests : List Attr
  built : List Attr
  check_reports : List String
deriving DecidableEq, Repr

/-- `Report.__init__`: classify every attr by the priority chain, then
partition the locally failed ones by the CI cross-reference.  The
`nix-store --verify-path` calls behind `was_build` are the `verified`
oracle; the Hydra queries are the `hydra` oracle. -/
def mkReport (verified : String → Bool) (hydra : String → Option BuildStatus)
    (system : String) (attrs : List Attr) (pr_data : Option PrData) : Report :=
  let st := attrs.foldl (classifyStep verified) {}
  let (failed_new, failed_existing) := get_hydra_build_status hydra st.failed
  { system := system
    attrs := attrs
    pr_data := pr_data
    skipped := st.skipped
    broken := st.broken
    timed_out := st.timed_out
    failed_new := failed_new
    failed_existing := failed_existing
    non_existant := st.non_existant
    blacklisted := st.blacklisted
    tests := st.tests
    built := st.built
    check_reports := (attrs.foldl (fun s a => s ++ a.check_report) []).dedup }

/-! ## Markdown rendering (report.py: `html_pkgs_section`,
`html_check_reports`, `Report.markdown`) -/

/-- The item loop of `html_pkgs_section`: render each package as a list
item, truncating with an ellipsis item once `show` items were shown
(`show > 0` only).  A linked name is closed twice, exactly as the Python
string building does. -/
def pkgsItems (show_ : Int) : Nat → List Attr → String
  | _, [] => ""
  | i, pkg :: rest =>
    if show_ > 0 ∧ (i : Int) ≥ show_ then "    <li>...</li>\n"
    else
      (match pkg.log_url with
       | some url => "    <li><a href=\"" ++ url ++ "\">" ++ pkg.name ++ "</a></li>"
       | none => "    <li>" ++ pkg.name)
      ++ (if pkg.aliases.length > 0 then
            " (" ++ String.intercalate " ," pkg.aliases ++ ")"
          else "")
      ++ "</li>\n"
      ++ pkgsItems show_ (i + 1) rest

/-- `report.html_pkgs_section`. -/
def html_pkgs_section (packages : List Attr) (msg : String)
    (what : String := "package") (show_ : Int := -1) : String :=
  if packages.length = 0 then ""
  else
    let plural := if packages.length > 1 then "s" else ""
    "<details>\n"
    ++ "  <summary>" ++ toString packages.length ++ " " ++ what ++ plural
    ++ " " ++ msg ++ ":</summary>\n  <ul>\n"
    ++ pkgsItems show_ 0 packages
    ++ "  </ul>\n</details>\n"

/-- `report.html_check_reports`. -/
def html_check_reports (check_reports : List String) : String :=
  if check_reports.length = 0 then ""
  else
    let plural := if check_reports.length > 1 then "s" else ""
    "<details>\n"
    ++ "  <summary>" ++ toString check_reports.length ++ " suggestion" ++ plural
    ++ ":</summary>\n  <ul>\n"
    ++ String.join (check_reports.map (fun report => "    <li>" ++ report ++ "</li>\n"))
    ++ "  </ul>\n</details>\n"

/-- `Report.markdown`: the persisted document.  `sorted(check_reports)`
is the lexicographic sort of the advisory set. -/
def Report.markdown (r : Report) : String :=
  let cmd := "nixpkgs-review"
    ++ (match r.pr_data with
        | some pd => " pr " ++ toString pd.number
        | none => "")
  let shortcommit :=
    match r.pr_data with
    | some pd => " at " ++ pd.head_sha.take 8
    | none => ""
  let link := "[1](https://github.com/Mic92/nixpkgs-review)"
  "Result of `" ++ cmd ++ "`" ++ shortcommit ++ " run on " ++ r.system ++ " "
  ++ link ++ "\n"
  ++ html_pkgs_section r.broken "marked as broken and skipped" "package" 10
  ++ html_pkgs_section r.non_existant
      "present in ofBorgs evaluation, but not found in the checkout"
  ++ html_pkgs_section r.failed_new "failed to build (new)"
  ++ html_pkgs_section r.failed_existing "failed to build (existing failures)"
  ++ html_pkgs_section r.skipped "skipped due to time constraints" "package" 10
  ++ html_pkgs_section r.timed_out "timed out"
  ++ html_pkgs_section r.tests "built" "test"
  ++ html_pkgs_section r.built "built"
  ++ html_check_reports (r.check_reports.mergeSort (fun a b => decide (a ≤ b)))

/-! ## Dict lemmas -/

theorem lookupA_cons {α : Type} (kv : String × α) (m : List (String × α)) (k : String) :
    lookupA (kv :: m) k = if kv.1 = k then some kv.2 else lookupA m k := by
  by_cases h : kv.1 = k
  · simp [lookupA, List.find?, beq_iff_eq.mpr h, h]
  · simp [lookupA, List.find?, beq_eq_false_iff_ne.mpr h, h]

theorem lookupA_upsertA_self {α : Type} (m : List (String × α)) (k : String) (v : α) :
    lookupA (upsertA m k v) k = some v := by
  induction m with
  | nil => simp [upsertA, lookupA_cons, lookupA, List.find?]
  | cons kv rest ih =>
    by_cases h : kv.1 = k
    · simp [upsertA, h, lookupA_cons]
    · simp only [upsertA, if_neg h]
      rw [lookupA_cons, if_neg h]
      exact ih

theorem lookupA_upsertA_ne {α : Type} (m : List (String × α)) (k k' : String) (v : α)
    (h : k' ≠ k) : lookupA (upsertA m k v) k' = lookupA m k' := by
  induction m with
  | nil =>
    show lookupA [(k, v)] k' = lookupA [] k'
    rw [lookupA_cons]
    simp only [if_neg (Ne.symm h)]
  | cons kv rest ih =>
    by_cases hk : kv.1 = k
    · subst hk
      rw [upsertA, if_pos rfl, lookupA_cons, lookupA_cons]
      simp only []
      by_cases hcur : kv.1 = k'
      · exact absurd hcur.symm h
      · rw [if_neg hcur, if_neg hcur]
    · rw [upsertA, if_neg hk, lookupA_cons, lookupA_cons]
      by_cases hcur : kv.1 = k'
      · rw [if_pos hcur, if_pos hcur]
      · rw [if_neg hcur, if_neg hcur]
        exact ih

theorem mem_keys_upsertA {α : Type} (m : List (String × α)) (k k' : String) (v : α) :
    k' ∈ (upsertA m k v).map Prod.fst ↔ k' = k ∨ k' ∈ m.map Prod.fst := by
  induction m with
  | nil => simp [upsertA]
  | cons kv rest ih =>
    by_cases h : kv.1 = k
    · subst h
      simp [upsertA]
    · simp only [upsertA, if_neg h, List.map_cons, List.mem_cons, ih]
      tauto

theorem keys_nodup_upsertA {α : Type} (m : List (String × α)) (k : String) (v : α)
    (h : (m.map Prod.fst).Nodup) : ((upsertA m k v).map Prod.fst).Nodup := by
  induction m with
  | nil => simp [upsertA]
  | cons kv rest ih =>
    by_cases hk : kv.1 = k
    · subst hk
      simpa [upsertA] using h
    · simp only [List.map_cons, List.nodup_cons] at h
      simp only [upsertA, if_neg hk, List.map_cons, List.nodup_cons]
      refine ⟨fun hmem => ?_, ih h.2⟩
      rw [mem_keys_upsertA] at hmem
      rcases hmem with rfl | hmem
      · exact hk rfl
      · exact h.1 hmem

theorem lookupA_eq_none_iff {α : Type} (m : List (String × α)) (k : String) :
    lookupA m k = none ↔ k ∉ m.map Prod.fst := by
  induction m with
  | nil => simp [lookupA, List.find?]
  | cons kv rest ih =>
    rw [lookupA_cons]
    by_cases h : kv.1 = k
    · simp [h]
    · simp only [if_neg h, List.map_cons, List.mem_cons, ih]
      constructor
      · intro hn hc
        rcases hc with hc | hc
        · exact h hc.symm
        · exact hn hc
      · intro hn hc
        exact hn (Or.inr hc)

theorem lookupA_isSome_iff {α : Type} (m : List (String × α)) (k : String) :
    (lookupA m k).isSome = true ↔ k ∈ m.map Prod.fst := by
  cases h : lookupA m k with
  | none =>
    simp only [Option.isSome_none, Bool.false_eq_true, false_iff]
    exact (lookupA_eq_none_iff m k).mp h
  | some v =>
    simp only [Option.isSome_some, true_iff]
    by_contra hc
    rw [← lookupA_eq_none_iff] at hc
    rw [h] at hc
    exact Option.noConfusion hc

/-! ## C10: the empty filter pipeline is the identity -/

/-- C10: when the pre-build filter environment variable and the
post-build checks environment variable specify no stage commands (unset
is modelled as the empty string; empty and separator-only values parse to
no stages), both pipelines return their input target list unchanged. -/
theorem empty_pipeline_is_identity
    (preSem : String → List Attr → List Attr)
    (postSem : String → List Attr → List String → List Attr)
    (preEnv postEnv : String) (attrs : List Attr) (drvs : List String)
    (h1 : parseStages preEnv = []) (h2 : parseStages postEnv = []) :
    pre_build_filter preSem preEnv attrs = attrs ∧
    postprocess postSem postEnv attrs drvs = attrs := by
  constructor
  · unfold pre_build_filter
    rw [h1]
    rfl
  · unfold postprocess
    rw [h2]
    rfl

/-- A sample target used by concrete witnesses. -/
def sampleAttr : Attr :=
  { name := "pkg"
    exists_ := true
    broken := false
    blacklisted := false
    skipped := false
    path := some "/nix/store/out-pkg"
    drv_path := some "/nix/store/pkg.drv"
    position := none }

/-- Witness for C10 at the empty and separator-only environment values,
with stages that would destroy the list if they ran. -/
theorem empty_pipeline_is_identity_witness :
    parseStages "" = [] ∧ parseStages ":::" = [] ∧
    (pre_build_filter (fun _ _ => []) "" [sampleAttr] = [sampleAttr] ∧
     postprocess (fun _ _ _ => []) ":::" [sampleAttr] ["/nix/store/pkg.drv"] = [sampleAttr]) :=
  ⟨by decide, by decide,
   empty_pipeline_is_identity (fun _ _ => []) (fun _ _ _ => []) "" ":::"
     [sampleAttr] ["/nix/store/pkg.drv"] (by decide) (by decide)⟩

/-! ## C4: the dry-run plan grammar -/

/-- C4 counterexample: on the exact plan text of the claim, the parser
does not return the claimed lists; the line "1 path will be fetched:"
matches none of the five recognized header substrings (in particular not
"paths will be fetched"), so parsing fails on it. -/
theorem nix_build_dry_parse_counterexample :
    nix_build_dry_parse
        "2 derivations will be built:\n/nix/store/aaa\n/nix/store/bbb\n1 path will be fetched:\n/nix/store/ccc\n"
      = .error (.unrecognized "1 path will be fetched:") := rfl

/-- A line (after stripping) that contains one of the five header
substrings recognized by `nix_build_dry`. -/
def recognizedDryHeader (line : String) : Bool :=
  substrIn line "this path will be fetched"
  || substrIn line "paths will be fetched"
  || substrIn line "derivations will be built"
  || substrIn line "derivation will be built"
  || substrIn line "don\x27t know how to build these paths"

/-- A raw plan line that is non-blank but neither a recognized section
header nor a `/nix/store` path. -/
def garbageDryLine (rawLine : String) : Bool :=
  let line := stripL rawLine
  !recognizedDryHeader line && !startsWithL line "/nix/store" && !(line == "")

theorem dryStep_garbage (st : DryState) (l : String) (h : garbageDryLine l = true) :
    dryStep st l = .error (.unrecognized (stripL l)) := by
  unfold garbageDryLine recognizedDryHeader at h
  simp only [Bool.and_eq_true, Bool.not_eq_true', Bool.or_eq_false_iff] at h
  obtain ⟨⟨⟨⟨⟨⟨h1, h2⟩, h3⟩, h4⟩, h5⟩, h6⟩, h7⟩ := h
  unfold dryStep
  simp only [h1, h2, h3, h4, h5, h6, Bool.false_eq_true, if_false]
  rw [if_pos]
  exact fun hc => by simp [hc] at h7

theorem dryRun_garbage_error (ls : List String) (l : String)
    (hl : l ∈ ls) (hg : garbageDryLine l = true) :
    ∀ st : DryState, ∃ e, dryRun st ls = .error e := by
  induction ls with
  | nil => cases hl
  | cons a rest ih =>
    intro st
    rcases List.mem_cons.mp hl with rfl | hmem
    · exact ⟨.unrecognized (stripL l), by rw [dryRun, dryStep_garbage st l hg]⟩
    · cases hstep : dryStep st a with
      | error e => exact ⟨e, by rw [dryRun, hstep]⟩
      | ok st' =>
        obtain ⟨e, he⟩ := ih hmem st'
        exact ⟨e, by rw [dryRun, hstep]; exact he⟩

/-- C4 (amended): the fetch header of the example must be one the grammar
recognizes — with "this path will be fetched:" in place of
"1 path will be fetched:" the example parses to exactly the claimed
lists; and for any plan output containing a non-blank line that is
neither a recognized section header nor a `/nix/store` path, parsing
fails with the fatal plan-parse error.  (The original header
"1 path will be fetched:" is itself such a line, so on the claim's
example the parser raises instead of returning the claimed lists.) -/
theorem nix_build_dry_parse_amended :
    nix_build_dry_parse
        "2 derivations will be built:\n/nix/store/aaa\n/nix/store/bbb\nthis path will be fetched:\n/nix/store/ccc\n"
      = .ok (["/nix/store/aaa", "/nix/store/bbb"], ["/nix/store/ccc"]) ∧
    ∀ planOutput : String,
      (∃ l ∈ splitlines planOutput, garbageDryLine l = true) →
      ∃ e, nix_build_dry_parse planOutput = .error e := by
  refine ⟨rfl, ?_⟩
  rintro s ⟨l, hl, hg⟩
  obtain ⟨e, he⟩ := dryRun_garbage_error (splitlines s) l hl hg ⟨[], [], [], none⟩
  refine ⟨e, ?_⟩
  unfold nix_build_dry_parse
  rw [he]
  rfl

/-- Witness for C4 (amended) at the plan output "garbage\n". -/
theorem nix_build_dry_parse_amended_witness :
    (∃ l ∈ splitlines "garbage\n", garbageDryLine l = true) ∧
    (∃ e, nix_build_dry_parse "garbage\n" = .error e) :=
  ⟨⟨"garbage", by decide, by decide⟩,
   nix_build_dry_parse_amended.2 "garbage\n" ⟨"garbage", by decide, by decide⟩⟩

/-! ## C7: pipeline application count in the build driver -/

/-- C7 counterexample: one requested name resolving to a broken target.
The driver applies the pre-build filter, finds nothing buildable, and
returns early: the trace shows a single pre-build application and no
post-build application, and the result is untouched by the post-build
stage semantics (which here would have emptied the list). -/
theorem nix_build_post_pipeline_skipped_counterexample :
    (nix_build ["foo"] id
        [("foo", ⟨true, true, some "/nix/store/out-foo", some "/nix/store/foo.drv", none⟩)]
        "" "" (fun _ as => as) (fun _ _ _ => []) "" "")
      = ([BuildEvent.preApplied],
         .ok [{ name := "foo"
                exists_ := true
                broken := true
                blacklisted := false
                skipped := false
                path := some "/nix/store/out-foo"
                drv_path := some "/nix/store/foo.drv"
                position := none }]) := rfl

/-- C7 (amended): on a non-empty requested set the pre-build filter
pipeline is applied exactly once, but the post-build pipeline is applied
exactly once only when at least one resolved target survives the
pre-build filter as buildable (not broken, blacklisted or skipped) and
the dry-run parse and diagnostic correlation succeed; when every resolved
target is filtered out, the driver returns early and the post-build
pipeline is not applied. -/
theorem nix_build_pipeline_applications
    (attr_names : List String) (relpath : String → String)
    (evalJson : List (String × Props)) (preEnv postEnv : String)
    (preSem : String → List Attr → List Attr)
    (postSem : String → List Attr → List String → List Attr)
    (dryStderr buildStderr : String)
    (h : attr_names ≠ []) :
    (nix_build attr_names relpath evalJson preEnv postEnv preSem postSem
        dryStderr buildStderr).1.count .preApplied = 1 ∧
    (nix_build attr_names relpath evalJson preEnv postEnv preSem postSem
        dryStderr buildStderr).1.count .postApplied =
      (if (pre_build_filter preSem preEnv (nix_eval_filter relpath evalJson)).filter
            buildWorthy ≠ []
          ∧ (nix_build attr_names relpath evalJson preEnv postEnv preSem postSem
              dryStderr buildStderr).2.isOk = true
       then 1 else 0) := by
  unfold nix_build
  rw [if_neg (by simpa using h)]
  by_cases hf :
      ((pre_build_filter preSem preEnv (nix_eval_filter relpath evalJson)).filter
        buildWorthy).isEmpty = true
  · simp only [List.isEmpty_iff] at hf
    simp [hf, List.count]
  · simp only [List.isEmpty_iff] at hf
    simp only [List.map_eq_nil_iff]
    rw [if_neg (by simpa [List.isEmpty_iff] using hf)]
    cases hdry : nix_build_dry_parse dryStderr with
    | error e => simp [hf, List.count, Except.isOk, Except.toBool]
    | ok pair =>
      cases hcor : nix_build_correlate buildStderr
          (pre_build_filter preSem preEnv (nix_eval_filter relpath evalJson)) with
      | error e => simp [hf, List.count, Except.isOk, Except.toBool]
      | ok attrs2 => simp [hf, List.count, Except.isOk, Except.toBool]

/-- Witness for C7 (amended): a non-empty requested set with one
buildable resolved target; both pipeline counts are checked at the
concrete input. -/
theorem nix_build_pipeline_applications_witness :
    (["foo"] ≠ ([] : List String)) ∧
    ((nix_build ["foo"] id
        [("foo", ⟨true, false, some "/nix/store/out-foo", some "/nix/store/foo.drv", none⟩)]
        "" "" (fun _ as => as) (fun _ as _ => as) "" "").1.count .preApplied = 1 ∧
     (nix_build ["foo"] id
        [("foo", ⟨true, false, some "/nix/store/out-foo", some "/nix/store/foo.drv", none⟩)]
        "" "" (fun _ as => as) (fun _ as _ => as) "" "").1.count .postApplied =
      (if (pre_build_filter (fun _ as => as) ""
            (nix_eval_filter id
              [("foo", ⟨true, false, some "/nix/store/out-foo", some "/nix/store/foo.drv", none⟩)])).filter
            buildWorthy ≠ []
          ∧ (nix_build ["foo"] id
              [("foo", ⟨true, false, some "/nix/store/out-foo", some "/nix/store/foo.drv", none⟩)]
              "" "" (fun _ as => as) (fun _ as _ => as) "" "").2.isOk = true
       then 1 else 0)) :=
  ⟨by decide,
   nix_build_pipeline_applications ["foo"] id
     [("foo", ⟨true, false, some "/nix/store/out-foo", some "/nix/store/foo.drv", none⟩)]
     "" "" (fun _ as => as) (fun _ as _ => as) "" "" (by decide)⟩

/-! ## C6: per-request degradation in the CI cross-referencer -/

/-- A well-formed status page with one parseable result row. -/
def goodHydraPage : HtmlDoc :=
  ⟨some [.cells5 "Succeeded" "123" "/build/123" "2024-01-01T00:00:00Z"
          "nixpkgs.pkg.x86_64-linux" "x86_64-linux"],
   none⟩

/-- A malformed status page: a result table with no usable row, on which
`_parse_build_html` raises its bare `RuntimeError`. -/
def emptyTableHydraPage : HtmlDoc := ⟨some [], none⟩

/-- C6 counterexample: the first target's page is fine, the second is
malformed.  The parse exception propagates out of the collection loop and
aborts the whole batch — the first target's result is lost instead of the
second degrading to "no data". -/
theorem fetch_hydra_malformed_page_aborts_batch :
    fetch_hydra_build_status
        [.collected "a" goodHydraPage, .collected "b" emptyTableHydraPage]
      = .error .runtimeError := rfl

theorem fetchLoop_spec (outcomes : List FetchOutcome) :
    ∀ acc : List (String × BuildStatus),
    (∀ n p, FetchOutcome.collected n p ∈ outcomes →
      ∃ st, parse_build_html p = .ok st) →
    ∃ res, fetchLoop acc outcomes = .ok res ∧
      ∀ n, (lookupA res n).isSome = true ↔
        ((lookupA acc n).isSome = true ∨ ∃ p, FetchOutcome.collected n p ∈ outcomes) := by
  induction outcomes with
  | nil =>
    intro acc _
    exact ⟨acc, rfl, fun n => by simp⟩
  | cons o rest ih =>
    intro acc h
    cases o with
    | missing =>
      obtain ⟨res, hres, hiff⟩ := ih acc (fun n p hm => h n p (List.mem_cons_of_mem _ hm))
      refine ⟨res, hres, fun n => ?_⟩
      rw [hiff n]
      simp
    | collected n0 p0 =>
      obtain ⟨st0, hst0⟩ := h n0 p0 (List.mem_cons_self _ _)
      obtain ⟨res, hres, hiff⟩ :=
        ih (upsertA acc n0 st0) (fun n p hm => h n p (List.mem_cons_of_mem _ hm))
      refine ⟨res, ?_, fun n => ?_⟩
      · rw [fetchLoop, hst0]
        exact hres
      · rw [hiff n]
        by_cases hn : n = n0
        · subst hn
          rw [lookupA_upsertA_self]
          simp only [Option.isSome_some, true_or, true_iff]
          exact Or.inr ⟨p0, List.mem_cons_self _ _⟩
        · rw [lookupA_upsertA_ne acc n0 n st0 hn]
          constructor
          · rintro (hacc | ⟨p, hp⟩)
            · exact Or.inl hacc
            · exact Or.inr ⟨p, List.mem_cons_of_mem _ hp⟩
          · rintro (hacc | ⟨p, hp⟩)
            · exact Or.inl hacc
            · rcases List.mem_cons.mp hp with heq | hp2
              · cases heq
                exact absurd rfl hn
              · exact Or.inr ⟨p, hp2⟩

/-- C6 (amended): a future that raised (network error) or returned no
body (non-200 or HTTP error) degrades to "no data" for its target and
never aborts the batch: whenever every *collected* page parses, the batch
succeeds and returns a status exactly for the targets whose page was
collected.  A malformed collected page, however, raises out of the
collection loop and aborts the whole batch (see the counterexample). -/
theorem fetch_hydra_per_request_degradation
    (outcomes : List FetchOutcome)
    (h : ∀ n p, FetchOutcome.collected n p ∈ outcomes →
      ∃ st, parse_build_html p = .ok st) :
    ∃ res, fetch_hydra_build_status outcomes = .ok res ∧
      ∀ n, (lookupA res n).isSome = true ↔
        ∃ p, FetchOutcome.collected n p ∈ outcomes := by
  obtain ⟨res, hres, hiff⟩ := fetchLoop_spec outcomes [] h
  refine ⟨res, hres, fun n => ?_⟩
  rw [hiff n]
  simp [lookupA, List.find?]

/-- Witness for C6 (amended): one failed future and one collected page;
the failed future does not abort the batch and only the collected target
has data. -/
theorem fetch_hydra_per_request_degradation_witness :
    (∃ st, parse_build_html goodHydraPage = .ok st) ∧
    (∃ res, fetch_hydra_build_status [.missing, .collected "a" goodHydraPage] = .ok res ∧
      ∀ n, (lookupA res n).isSome = true ↔
        ∃ p, FetchOutcome.collected n p ∈
          [FetchOutcome.missing, FetchOutcome.collected "a" goodHydraPage]) :=
  ⟨⟨_, rfl⟩,
   fetch_hydra_per_request_degradation [.missing, .collected "a" goodHydraPage]
     (by
       rintro n p hm
       rcases List.mem_cons.mp hm with heq | hm2
       · cases heq
       · rcases List.mem_cons.mp hm2 with heq | hm3
         · cases heq
           exact ⟨_, rfl⟩
         · cases hm3)⟩

/-! ## C8: deterministic markdown rendering -/

theorem mergeSort_eq_of_perm {l1 l2 : List String} (h : l1.Perm l2) :
    l1.mergeSort (fun a b => decide (a ≤ b)) = l2.mergeSort (fun a b => decide (a ≤ b)) := by
  apply List.eq_of_perm_of_sorted (r := fun a b : String => a ≤ b)
  · exact (List.mergeSort_perm l1 _).trans (h.trans (List.mergeSort_perm l2 _).symm)
  · exact List.sorted_mergeSort' l1
  · exact List.sorted_mergeSort' l2

/-- C8: the Markdown rendering is a deterministic function of the
classified buckets and the advisory set: two reports with identical
buckets whose advisory strings are mere reorderings of one another (the
advisory set is iterated in arbitrary order) render to byte-identical
Markdown, because rendering sorts the advisories. -/
theorem report_markdown_deterministic (r1 r2 : Report)
    (hsys : r1.system = r2.system) (hpr : r1.pr_data = r2.pr_data)
    (hbroken : r1.broken = r2.broken) (hnex : r1.non_existant = r2.non_existant)
    (hfn : r1.failed_new = r2.failed_new) (hfe : r1.failed_existing = r2.failed_existing)
    (hsk : r1.skipped = r2.skipped) (hto : r1.timed_out = r2.timed_out)
    (hts : r1.tests = r2.tests) (hbu : r1.built = r2.built)
    (hcr : r1.check_reports.Perm r2.check_reports) :
    r1.markdown = r2.markdown := by
  unfold Report.markdown
  rw [hsys, hpr, hbroken, hnex, hfn, hfe, hsk, hto, hts, hbu,
    mergeSort_eq_of_perm hcr]

/-- Two sample reports over the same buckets whose advisory strings
arrive in different set-iteration orders. -/
def sampleReportA : Report :=
  { system := "x86_64-linux"
    attrs := [sampleAttr]
    pr_data := some ⟨77, "0123456789abcdef"⟩
    skipped := []
    broken := []
    timed_out := []
    failed_new := []
    failed_existing := []
    non_existant := []
    blacklisted := []
    tests := []
    built := [sampleAttr]
    check_reports := ["zeta advice", "alpha advice"] }

/-- `sampleReportA` with the advisory strings in the opposite order. -/
def sampleReportB : Report :=
  { sampleReportA with check_reports := ["alpha advice", "zeta advice"] }

/-- Witness for C8 at two concrete reports. -/
theorem report_markdown_deterministic_witness :
    (sampleReportA.check_reports.Perm sampleReportB.check_reports) ∧
    sampleReportA.markdown = sampleReportB.markdown :=
  ⟨by decide,
   report_markdown_deterministic sampleReportA sampleReportB rfl rfl rfl rfl rfl rfl
     rfl rfl rfl rfl (by decide)⟩

/-! ## C2: the CI partition of locally failed targets -/

/-- The partition predicate of §4.4: upstream data exists and reports
non-success. -/
def hydraFailedExisting (hydra : String → Option BuildStatus) (a : Attr) : Bool :=
  match hydra a.name with
  | some st => !st.success
  | none => false

theorem upsertA_append {α : Type} (m : List (String × α)) (k : String) (v : α)
    (h : k ∉ m.map Prod.fst) : upsertA m k v = m ++ [(k, v)] := by
  induction m with
  | nil => rfl
  | cons kv rest ih =>
    simp only [List.map_cons, List.mem_cons] at h
    push_neg at h
    rw [upsertA, if_neg (fun hc => h.1 hc.symm), ih h.2]
    rfl

theorem name2attrOf_eq_map (failed : List Attr)
    (hn : (failed.map (·.name)).Nodup) :
    name2attrOf failed = failed.map (fun a => (a.name, a)) := by
  suffices hgen : ∀ (l : List Attr) (init : List (String × Attr)),
      ((l.map (·.name)).Nodup) →
      (∀ a ∈ l, a.name ∉ init.map Prod.fst) →
      l.foldl (fun m a => upsertA m a.name a) init = init ++ l.map (fun a => (a.name, a)) by
    simpa [name2attrOf] using hgen failed [] hn (by simp)
  intro l
  induction l with
  | nil => intro init _ _; simp
  | cons a rest ih =>
    intro init hn hd
    simp only [List.map_cons, List.nodup_cons] at hn
    rw [List.foldl_cons, upsertA_append init a.name a (hd a (List.mem_cons_self a rest)),
      ih (init ++ [(a.name, a)]) hn.2 ?_]
    · simp
    · intro b hb
      simp only [List.map_append, List.mem_append, List.map_cons]
      rintro (hc | hc)
      · exact hd b (List.mem_cons_of_mem a hb) hc
      · simp only [List.map_nil, List.mem_singleton] at hc
        exact hn.1 (hc ▸ List.mem_map_of_mem (·.name) hb)

theorem hydraReportStep_some (hydra : String → Option BuildStatus)
    (acc : List (String × BuildStatus)) (a : Attr) (st : BuildStatus)
    (h : hydra a.name = some st) :
    hydraReportStep hydra acc a = upsertA acc a.name st := by
  unfold hydraReportStep
  rw [h]

theorem hydraReportStep_none (hydra : String → Option BuildStatus)
    (acc : List (String × BuildStatus)) (a : Attr)
    (h : hydra a.name = none) :
    hydraReportStep hydra acc a = acc := by
  unfold hydraReportStep
  rw [h]

theorem hydraReports_eq_filterMap (hydra : String → Option BuildStatus)
    (failed : List Attr) (hn : (failed.map (·.name)).Nodup) :
    hydraReports hydra failed =
      failed.filterMap (fun a => (hydra a.name).map (fun st => (a.name, st))) := by
  suffices hgen : ∀ (l : List Attr) (init : List (String × BuildStatus)),
      ((l.map (·.name)).Nodup) →
      (∀ a ∈ l, a.name ∉ init.map Prod.fst) →
      l.foldl (hydraReportStep hydra) init
        = init ++ l.filterMap (fun a => (hydra a.name).map (fun st => (a.name, st))) by
    simpa [hydraReports] using hgen failed [] hn (by simp)
  intro l
  induction l with
  | nil => intro init _ _; simp
  | cons a rest ih =>
    intro init hn hd
    simp only [List.map_cons, List.nodup_cons] at hn
    rw [List.foldl_cons]
    cases hh : hydra a.name with
    | none =>
      rw [hydraReportStep_none hydra init a hh,
        ih init hn.2 (fun b hb => hd b (List.mem_cons_of_mem a hb))]
      simp [List.filterMap_cons, hh]
    | some st =>
      rw [hydraReportStep_some hydra init a st hh,
        upsertA_append init a.name st (hd a (List.mem_cons_self a rest)),
        ih (init ++ [(a.name, st)]) hn.2 ?_]
      · simp [List.filterMap_cons, hh]
      · intro b hb
        simp only [List.map_append, List.mem_append, List.map_cons]
        rintro (hc | hc)
        · exact hd b (List.mem_cons_of_mem a hb) hc
        · simp only [List.map_nil, List.mem_singleton] at hc
          exact hn.1 (hc ▸ List.mem_map_of_mem (·.name) hb)

theorem popLoop_untouched_head (rs : List (String × BuildStatus)) :
    ∀ (k : String) (a' : Attr) (m : List (String × Attr)) (ex : List Attr),
    (∀ nr ∈ rs, nr.1 ≠ k) →
    rs.foldl popStep ((k, a') :: m, ex)
      = ((k, a') :: (rs.foldl popStep (m, ex)).1, (rs.foldl popStep (m, ex)).2) := by
  induction rs with
  | nil => intro k a' m ex _; rfl
  | cons nr rest ih =>
    intro k a' m ex h
    have hk : nr.1 ≠ k := h nr (List.mem_cons_self nr rest)
    have hrest : ∀ x ∈ rest, x.1 ≠ k := fun x hx => h x (List.mem_cons_of_mem nr hx)
    rw [List.foldl_cons, List.foldl_cons]
    by_cases hs : nr.2.success
    · rw [show popStep ((k, a') :: m, ex) nr = ((k, a') :: m, ex) from by
        simp [popStep, hs]]
      rw [show popStep (m, ex) nr = (m, ex) from by simp [popStep, hs]]
      exact ih k a' m ex hrest
    · have hlook : lookupA ((k, a') :: m) nr.1 = lookupA m nr.1 := by
        rw [lookupA_cons, if_neg (fun hc => hk hc.symm)]
      have herase : eraseKeyA ((k, a') :: m) nr.1 = (k, a') :: eraseKeyA m nr.1 := by
        rw [eraseKeyA, if_neg (fun hc => hk hc.symm)]
      cases hfind : lookupA m nr.1 with
      | none =>
        rw [show popStep ((k, a') :: m, ex) nr = ((k, a') :: m, ex) from by
          simp [popStep, hs, hlook, hfind]]
        rw [show popStep (m, ex) nr = (m, ex) from by simp [popStep, hs, hfind]]
        exact ih k a' m ex hrest
      | some b =>
        rw [show popStep ((k, a') :: m, ex) nr
            = ((k, a') :: eraseKeyA m nr.1, ex ++ [b]) from by
          simp [popStep, hs, hlook, hfind, herase]]
        rw [show popStep (m, ex) nr = (eraseKeyA m nr.1, ex ++ [b]) from by
          simp [popStep, hs, hfind]]
        exact ih k a' (eraseKeyA m nr.1) (ex ++ [b]) hrest

theorem popLoop_accum (rs : List (String × BuildStatus)) :
    ∀ (m : List (String × Attr)) (ex : List Attr),
    rs.foldl popStep (m, ex)
      = ((rs.foldl popStep (m, [])).1, ex ++ (rs.foldl popStep (m, [])).2) := by
  induction rs with
  | nil => intro m ex; simp
  | cons nr rest ih =>
    intro m ex
    rw [List.foldl_cons, List.foldl_cons]
    by_cases hs : nr.2.success
    · rw [show popStep (m, ex) nr = (m, ex) from by simp [popStep, hs]]
      rw [show popStep (m, []) nr = (m, ([] : List Attr)) from by simp [popStep, hs]]
      exact ih m ex
    · cases hfind : lookupA m nr.1 with
      | none =>
        rw [show popStep (m, ex) nr = (m, ex) from by simp [popStep, hs, hfind]]
        rw [show popStep (m, []) nr = (m, ([] : List Attr)) from by
          simp [popStep, hs, hfind]]
        exact ih m ex
      | some b =>
        rw [show popStep (m, ex) nr = (eraseKeyA m nr.1, ex ++ [b]) from by
          simp [popStep, hs, hfind]]
        rw [show popStep (m, []) nr = (eraseKeyA m nr.1, [b]) from by
          simp [popStep, hs, hfind]]
        rw [ih (eraseKeyA m nr.1) (ex ++ [b]), ih (eraseKeyA m nr.1) [b]]
        simp

theorem popLoop_partition (hydra : String → Option BuildStatus) :
    ∀ failed : List Attr, (failed.map (·.name)).Nodup →
    popLoop (failed.map (fun a => (a.name, a)))
        (failed.filterMap (fun a => (hydra a.name).map (fun st => (a.name, st))))
      = ((failed.filter (fun a => !hydraFailedExisting hydra a)).map (fun a => (a.name, a)),
         failed.filter (fun a => hydraFailedExisting hydra a)) := by
  intro failed
  induction failed with
  | nil => intro _; rfl
  | cons a rest ih =>
    intro hn
    simp only [List.map_cons, List.nodup_cons] at hn
    have hkeys : ∀ nr ∈ rest.filterMap
        (fun b => (hydra b.name).map (fun st => (b.name, st))), nr.1 ≠ a.name := by
      intro nr hnr
      obtain ⟨b, hb, hmap⟩ := List.mem_filterMap.mp hnr
      cases hhb : hydra b.name with
      | none => rw [hhb] at hmap; cases hmap
      | some stb =>
        rw [hhb] at hmap
        cases hmap
        intro hc
        exact hn.1 (hc ▸ List.mem_map_of_mem (·.name) hb)
    cases hh : hydra a.name with
    | none =>
      have hpred : hydraFailedExisting hydra a = false := by
        simp [hydraFailedExisting, hh]
      simp only [List.map_cons, List.filterMap_cons, hh, Option.map_none']
      unfold popLoop
      rw [popLoop_untouched_head _ a.name a _ [] hkeys]
      have := ih hn.2
      unfold popLoop at this
      rw [this]
      simp [List.filter_cons, hpred]
    | some st =>
      simp only [List.map_cons, List.filterMap_cons, hh, Option.map_some']
      by_cases hsucc : st.success
      · have hpred : hydraFailedExisting hydra a = false := by
          simp [hydraFailedExisting, hh, hsucc]
        unfold popLoop
        rw [List.foldl_cons,
          show popStep ((a.name, a) :: rest.map (fun b => (b.name, b)), []) (a.name, st)
            = ((a.name, a) :: rest.map (fun b => (b.name, b)), []) from by
              simp [popStep, hsucc]]
        rw [popLoop_untouched_head _ a.name a _ [] hkeys]
        have := ih hn.2
        unfold popLoop at this
        rw [this]
        simp [List.filter_cons, hpred]
      · have hpred : hydraFailedExisting hydra a = true := by
          simp [hydraFailedExisting, hh, hsucc]
        unfold popLoop
        rw [List.foldl_cons,
          show popStep ((a.name, a) :: rest.map (fun b => (b.name, b)), []) (a.name, st)
            = (rest.map (fun b => (b.name, b)), [a]) from by
              simp only [popStep, hsucc, if_false]
              rw [lookupA_cons, if_pos rfl]
              rw [eraseKeyA, if_pos rfl]
              rfl]
        rw [popLoop_accum]
        have := ih hn.2
        unfold popLoop at this
        rw [this]
        simp [List.filter_cons, hpred]

/-- The partition of `get_hydra_build_status` as two filters of the
`failed` list (valid when names are unique, which the resolver
guarantees). -/
theorem get_hydra_partition (hydra : String → Option BuildStatus)
    (failed : List Attr) (hn : (failed.map (·.name)).Nodup) :
    get_hydra_build_status hydra failed
      = (failed.filter (fun a => !hydraFailedExisting hydra a),
         failed.filter (fun a => hydraFailedExisting hydra a)) := by
  unfold get_hydra_build_status
  rw [name2attrOf_eq_map failed hn, hydraReports_eq_filterMap hydra failed hn,
    popLoop_partition hydra failed hn]
  simp only [List.map_map]
  rw [show ((fun x : String × Attr => x.2) ∘ fun a : Attr => (a.name, a)) = id from rfl,
    List.map_id]

/-- C2: every Target reaching the CI cross-referencing step is placed in
`failed_existing` when the upstream data for its name reports
non-success, and in `failed_new` when there is no upstream data or the
upstream data reports success; each such Target lands in exactly one of
the two lists.  (Names are unique among the failed targets, which the
resolver guarantees.) -/
theorem ci_partition_per_target (hydra : String → Option BuildStatus)
    (failed : List Attr) (hn : (failed.map (·.name)).Nodup)
    (a : Attr) (ha : a ∈ failed) :
    (∀ st, hydra a.name = some st → st.success = false →
      (a ∈ (get_hydra_build_status hydra failed).2 ∧
       a ∉ (get_hydra_build_status hydra failed).1)) ∧
    (∀ st, hydra a.name = some st → st.success = true →
      (a ∈ (get_hydra_build_status hydra failed).1 ∧
       a ∉ (get_hydra_build_status hydra failed).2)) ∧
    (hydra a.name = none →
      (a ∈ (get_hydra_build_status hydra failed).1 ∧
       a ∉ (get_hydra_build_status hydra failed).2)) ∧
    ((a ∈ (get_hydra_build_status hydra failed).1 ∧
      a ∉ (get_hydra_build_status hydra failed).2) ∨
     (a ∈ (get_hydra_build_status hydra failed).2 ∧
      a ∉ (get_hydra_build_status hydra failed).1)) := by
  rw [get_hydra_partition hydra failed hn]
  simp only [List.mem_filter, Bool.not_eq_true', not_and]
  refine ⟨?_, ?_, ?_, ?_⟩
  · intro st hst hsucc
    have hpred : hydraFailedExisting hydra a = true := by
      simp [hydraFailedExisting, hst, hsucc]
    exact ⟨⟨ha, hpred⟩, fun _ hc => by rw [hpred] at hc; cases hc⟩
  · intro st hst hsucc
    have hpred : hydraFailedExisting hydra a = false := by
      simp [hydraFailedExisting, hst, hsucc]
    exact ⟨⟨ha, hpred⟩, fun _ hc => by rw [hpred] at hc; cases hc⟩
  · intro hnone
    have hpred : hydraFailedExisting hydra a = false := by
      simp [hydraFailedExisting, hnone]
    exact ⟨⟨ha, hpred⟩, fun _ hc => by rw [hpred] at hc; cases hc⟩
  · cases hpred : hydraFailedExisting hydra a with
    | false => exact Or.inl ⟨⟨ha, rfl⟩, fun _ hc => by cases hc⟩
    | true => exact Or.inr ⟨⟨ha, rfl⟩, fun _ hc => by cases hc⟩

/-- Three sample failed targets for the C2 witness: upstream success for
"alpha", upstream failure for "beta", no upstream data for "gamma". -/
def failedAlpha : Attr :=
  { sampleAttr with name := "alpha", path := some "/nix/store/out-alpha" }

/-- Second sample failed target. -/
def failedBeta : Attr :=
  { sampleAttr with name := "beta", path := some "/nix/store/out-beta" }

/-- Third sample failed target. -/
def failedGamma : Attr :=
  { sampleAttr with name := "gamma", path := some "/nix/store/out-gamma" }

/-- The upstream oracle of the C2 witness. -/
def sampleHydra : String → Option BuildStatus :=
  fun n =>
    if n = "alpha" then some { success := true, status := "Succeeded" }
    else if n = "beta" then some { success := false, status := "Failed" }
    else none

/-- Witness for C2 at a concrete failed set: "gamma" has no upstream data
and ends up in `failed_new` only. -/
theorem ci_partition_per_target_witness :
    ([failedAlpha, failedBeta, failedGamma].map (·.name)).Nodup ∧
    failedGamma ∈ [failedAlpha, failedBeta, failedGamma] ∧
    (sampleHydra "gamma" = none →
      (failedGamma ∈ (get_hydra_build_status sampleHydra [failedAlpha, failedBeta, failedGamma]).1 ∧
       failedGamma ∉ (get_hydra_build_status sampleHydra [failedAlpha, failedBeta, failedGamma]).2)) :=
  ⟨by decide, by decide,
   (ci_partition_per_target sampleHydra [failedAlpha, failedBeta, failedGamma]
     (by decide) failedGamma (by decide)).2.2.1⟩

/-! ## C1: classification totality, exclusivity and priority order -/

/-- The nine outcome buckets of a report. -/
inductive Bucket
  | broken
  | blacklisted
  | skipped
  | timed_out
  | non_existant
  | tests
  | failed_new
  | failed_existing
  | built
deriving DecidableEq, Repr

/-- The bucket list of a report selected by bucket. -/
def bucketList (r : Report) : Bucket → List Attr
  | .broken => r.broken
  | .blacklisted => r.blacklisted
  | .skipped => r.skipped
  | .timed_out => r.timed_out
  | .non_existant => r.non_existant
  | .tests => r.tests
  | .failed_new => r.failed_new
  | .failed_existing => r.failed_existing
  | .built => r.built

/-- The claim-side priority chain of §4.5, evaluated once per target,
first match winning: broken, blacklisted, skipped, timed-out,
non-existent, tests, not-built (split by upstream CI data), else built. -/
def bucketOf (verified : String → Bool) (hydra : String → Option BuildStatus)
    (a : Attr) : Bucket :=
  if a.broken then .broken
  else if a.blacklisted then .blacklisted
  else if a.skipped then .skipped
  else if a.timed_out then .timed_out
  else if !a.exists_ then .non_existant
  else if startsWithL a.name "nixosTests." then .tests
  else if !a.was_build verified then
    (if hydraFailedExisting hydra a then .failed_existing else .failed_new)
  else .built

/-- The eight-way classification performed by the loop of
`Report.__init__` itself, before the CI split of `failed`. -/
inductive PreBucket
  | broken
  | blacklisted
  | skipped
  | timed_out
  | non_existant
  | tests
  | failed
  | built
deriving DecidableEq, Repr

/-- The `if`/`elif` chain of the classification loop as a function. -/
def preBucketOf (verified : String → Bool) (a : Attr) : PreBucket :=
  if a.broken then .broken
  else if a.blacklisted then .blacklisted
  else if a.skipped then .skipped
  else if a.timed_out then .timed_out
  else if !a.exists_ then .non_existant
  else if startsWithL a.name "nixosTests." then .tests
  else if !a.was_build verified then .failed
  else .built

theorem classifyStep_eq (verified : String → Bool) (st : ClassState) (a : Attr) :
    classifyStep verified st a =
      match preBucketOf verified a with
      | .broken => { st with broken := st.broken ++ [a] }
      | .blacklisted => { st with blacklisted := st.blacklisted ++ [a] }
      | .skipped => { st with skipped := st.skipped ++ [a] }
      | .timed_out => { st with timed_out := st.timed_out ++ [a] }
      | .non_existant => { st with non_existant := st.non_existant ++ [a] }
      | .tests => { st with tests := st.tests ++ [a] }
      | .failed => { st with failed := st.failed ++ [a] }
      | .built => { st with built := st.built ++ [a] } := by
  unfold classifyStep preBucketOf
  split_ifs <;> rfl

theorem classify_foldl (verified : String → Bool) (attrs : List Attr) :
    ∀ st0 : ClassState,
    attrs.foldl (classifyStep verified) st0 =
      { skipped := st0.skipped ++ attrs.filter (fun a => preBucketOf verified a == .skipped)
        broken := st0.broken ++ attrs.filter (fun a => preBucketOf verified a == .broken)
        timed_out := st0.timed_out ++ attrs.filter (fun a => preBucketOf verified a == .timed_out)
        failed := st0.failed ++ attrs.filter (fun a => preBucketOf verified a == .failed)
        non_existant :=
          st0.non_existant ++ attrs.filter (fun a => preBucketOf verified a == .non_existant)
        blacklisted :=
          st0.blacklisted ++ attrs.filter (fun a => preBucketOf verified a == .blacklisted)
        tests := st0.tests ++ attrs.filter (fun a => preBucketOf verified a == .tests)
        built := st0.built ++ attrs.filter (fun a => preBucketOf verified a == .built) } := by
  induction attrs with
  | nil => intro st0; simp
  | cons a rest ih =>
    intro st0
    rw [List.foldl_cons, ih (classifyStep verified st0 a), classifyStep_eq]
    cases hb : preBucketOf verified a <;>
      simp [hb, List.filter_cons, List.append_assoc]

theorem bucketOf_by_preBucket (verified : String → Bool)
    (hydra : String → Option BuildStatus) (a : Attr) :
    bucketOf verified hydra a =
      match preBucketOf verified a with
      | .broken => .broken
      | .blacklisted => .blacklisted
      | .skipped => .skipped
      | .timed_out => .timed_out
      | .non_existant => .non_existant
      | .tests => .tests
      | .failed => if hydraFailedExisting hydra a then .failed_existing else .failed_new
      | .built => .built := by
  unfold bucketOf preBucketOf
  split_ifs <;> rfl

theorem mkReport_buckets (verified : String → Bool)
    (hydra : String → Option BuildStatus) (system : String) (attrs : List Attr)
    (pr_data : Option PrData) (hn : (attrs.map (·.name)).Nodup) :
    (mkReport verified hydra system attrs pr_data).broken
        = attrs.filter (fun a => preBucketOf verified a == .broken) ∧
    (mkReport verified hydra system attrs pr_data).blacklisted
        = attrs.filter (fun a => preBucketOf verified a == .blacklisted) ∧
    (mkReport verified hydra system attrs pr_data).skipped
        = attrs.filter (fun a => preBucketOf verified a == .skipped) ∧
    (mkReport verified hydra system attrs pr_data).timed_out
        = attrs.filter (fun a => preBucketOf verified a == .timed_out) ∧
    (mkReport verified hydra system attrs pr_data).non_existant
        = attrs.filter (fun a => preBucketOf verified a == .non_existant) ∧
    (mkReport verified hydra system attrs pr_data).tests
        = attrs.filter (fun a => preBucketOf verified a == .tests) ∧
    (mkReport verified hydra system attrs pr_data).built
        = attrs.filter (fun a => preBucketOf verified a == .built) ∧
    (mkReport verified hydra system attrs pr_data).failed_new
        = attrs.filter (fun a =>
            (!hydraFailedExisting hydra a) && (preBucketOf verified a == .failed)) ∧
    (mkReport verified hydra system attrs pr_data).failed_existing
        = attrs.filter (fun a =>
            hydraFailedExisting hydra a && (preBucketOf verified a == .failed)) := by
  have hfailednodup :
      ((attrs.filter (fun a => preBucketOf verified a == .failed)).map (·.name)).Nodup :=
    List.Nodup.sublist (List.Sublist.map (·.name) (List.filter_sublist attrs)) hn
  simp only [mkReport]
  rw [classify_foldl verified attrs {}]
  dsimp only
  simp only [List.nil_append]
  rw [get_hydra_partition hydra _ hfailednodup]
  simp [List.filter_filter]

/-- C1: each target of a report lies in a bucket exactly when the §4.5
priority chain assigns it that bucket — so every target lies in exactly
one of the nine buckets, and the assignment follows the fixed priority
order regardless of the combination of the target's fields.  (Names are
unique within a resolution pass.) -/
theorem report_bucket_classification (verified : String → Bool)
    (hydra : String → Option BuildStatus) (system : String) (attrs : List Attr)
    (pr_data : Option PrData) (hn : (attrs.map (·.name)).Nodup)
    (a : Attr) (ha : a ∈ attrs) (b : Bucket) :
    a ∈ bucketList (mkReport verified hydra system attrs pr_data) b ↔
      bucketOf verified hydra a = b := by
  obtain ⟨hbr, hbl, hsk, hto, hne, hts, hbu, hfn, hfe2⟩ :=
    mkReport_buckets verified hydra system attrs pr_data hn
  cases b with
  | broken =>
    simp only [bucketList, hbr, List.mem_filter, ha, true_and]
    cases hpre : preBucketOf verified a <;> cases hfe : hydraFailedExisting hydra a <;>
      simp [bucketOf_by_preBucket, hpre, hfe]
  | blacklisted =>
    simp only [bucketList, hbl, List.mem_filter, ha, true_and]
    cases hpre : preBucketOf verified a <;> cases hfe : hydraFailedExisting hydra a <;>
      simp [bucketOf_by_preBucket, hpre, hfe]
  | skipped =>
    simp only [bucketList, hsk, List.mem_filter, ha, true_and]
    cases hpre : preBucketOf verified a <;> cases hfe : hydraFailedExisting hydra a <;>
      simp [bucketOf_by_preBucket, hpre, hfe]
  | timed_out =>
    simp only [bucketList, hto, List.mem_filter, ha, true_and]
    cases hpre : preBucketOf verified a <;> cases hfe : hydraFailedExisting hydra a <;>
      simp [bucketOf_by_preBucket, hpre, hfe]
  | non_existant =>
    simp only [bucketList, hne, List.mem_filter, ha, true_and]
    cases hpre : preBucketOf verified a <;> cases hfe : hydraFailedExisting hydra a <;>
      simp [bucketOf_by_preBucket, hpre, hfe]
  | tests =>
    simp only [bucketList, hts, List.mem_filter, ha, true_and]
    cases hpre : preBucketOf verified a <;> cases hfe : hydraFailedExisting hydra a <;>
      simp [bucketOf_by_preBucket, hpre, hfe]
  | failed_new =>
    simp only [bucketList, hfn, List.mem_filter, ha, true_and]
    cases hpre : preBucketOf verified a <;> cases hfe : hydraFailedExisting hydra a <;>
      simp [bucketOf_by_preBucket, hpre, hfe]
  | failed_existing =>
    simp only [bucketList, hfe2, List.mem_filter, ha, true_and]
    cases hpre : preBucketOf verified a <;> cases hfe : hydraFailedExisting hydra a <;>
      simp [bucketOf_by_preBucket, hpre, hfe]
  | built =>
    simp only [bucketList, hbu, List.mem_filter, ha, true_and]
    cases hpre : preBucketOf verified a <;> cases hfe : hydraFailedExisting hydra a <;>
      simp [bucketOf_by_preBucket, hpre, hfe]

/-- Witness for C1 at a concrete report: the sample buildable target is
in the built bucket exactly as the priority chain says. -/
theorem report_bucket_classification_witness :
    ([sampleAttr].map (·.name)).Nodup ∧ sampleAttr ∈ [sampleAttr] ∧
    (sampleAttr ∈
        bucketList (mkReport (fun _ => true) (fun _ => none) "x86_64-linux" [sampleAttr] none)
          .built ↔
      bucketOf (fun _ => true) (fun _ => none) sampleAttr = .built) :=
  ⟨by decide, by decide,
   report_bucket_classification (fun _ => true) (fun _ => none) "x86_64-linux"
     [sampleAttr] none (by decide) sampleAttr (by decide) .built⟩

/-! ## C5: diagnostic correlation -/

/-- The dependency-failure tokens extracted from a diagnostic stream, in
line order. -/
def depTokens (ls : List String) : List String :=
  ls.filterMap (fun l => if substrIn l depPat then storeTokenDep l else none)

/-- Last matching line of a scan, starting from `init` (the value a dict
entry would have before these lines are processed). -/
def lastMatch (p : String → Bool) (ls : List String) (init : Option String) :
    Option String :=
  ls.foldl (fun acc l => if p l then some l else acc) init

/-- A diagnostic line recording a timeout whose extracted token is `d`. -/
def toutMatch (d : String) (l : String) : Bool :=
  substrIn l toutPat && (storeTokenTout l == some d)

theorem scanStep_shape_both (deps : List String) (touts : List (String × String))
    (l tok tok2 : String)
    (hdep : substrIn l depPat = true) (hdtok : storeTokenDep l = some tok)
    (htoutp : substrIn l toutPat = true) (httok : storeTokenTout l = some tok2) :
    scanStep deps touts l = .ok (deps ++ [tok], upsertA touts tok2 l) := by
  unfold scanStep
  simp [hdep, hdtok, htoutp, httok]

theorem scanStep_shape_dep (deps : List String) (touts : List (String × String))
    (l tok : String)
    (hdep : substrIn l depPat = true) (hdtok : storeTokenDep l = some tok)
    (htoutp : ¬substrIn l toutPat = true) :
    scanStep deps touts l = .ok (deps ++ [tok], touts) := by
  unfold scanStep
  simp [hdep, hdtok, htoutp]

theorem scanStep_shape_tout (deps : List String) (touts : List (String × String))
    (l tok2 : String)
    (hdep : ¬substrIn l depPat = true)
    (htoutp : substrIn l toutPat = true) (httok : storeTokenTout l = some tok2) :
    scanStep deps touts l = .ok (deps, upsertA touts tok2 l) := by
  unfold scanStep
  simp [hdep, htoutp, httok]

theorem scanStep_shape_skip (deps : List String) (touts : List (String × String))
    (l : String)
    (hdep : ¬substrIn l depPat = true) (htoutp : ¬substrIn l toutPat = true) :
    scanStep deps touts l = .ok (deps, touts) := by
  unfold scanStep
  simp [hdep, htoutp]

theorem scanStep_shape_deperr (deps : List String) (touts : List (String × String))
    (l : String)
    (hdep : substrIn l depPat = true) (hdtok : storeTokenDep l = none) :
    scanStep deps touts l = .error (.noStoreToken l) := by
  unfold scanStep
  simp [hdep, hdtok]

theorem scanStep_shape_touterr1 (deps : List String) (touts : List (String × String))
    (l tok : String)
    (hdep : substrIn l depPat = true) (hdtok : storeTokenDep l = some tok)
    (htoutp : substrIn l toutPat = true) (httok : storeTokenTout l = none) :
    scanStep deps touts l = .error (.noStoreToken l) := by
  unfold scanStep
  simp [hdep, hdtok, htoutp, httok]

theorem scanStep_shape_touterr2 (deps : List String) (touts : List (String × String))
    (l : String)
    (hdep : ¬substrIn l depPat = true)
    (htoutp : substrIn l toutPat = true) (httok : storeTokenTout l = none) :
    scanStep deps touts l = .error (.noStoreToken l) := by
  unfold scanStep
  simp [hdep, htoutp, httok]

theorem notMatch_of_other_token (d l tok2 : String)
    (httok : storeTokenTout l = some tok2) (hd : ¬d = tok2) :
    ¬toutMatch d l = true := by
  simp only [toutMatch, httok, Bool.and_eq_true, beq_iff_eq, Option.some.injEq]
  rintro ⟨-, hc⟩
  exact hd hc.symm

theorem scanLines_spec (ls : List String) :
    ∀ (deps : List String) (touts : List (String × String))
      (D : List String) (T : List (String × String)),
    scanLines deps touts ls = .ok (D, T) →
    D = deps ++ depTokens ls ∧
    (∀ d, lookupA T d = lastMatch (toutMatch d) ls (lookupA touts d)) ∧
    ((touts.map Prod.fst).Nodup → (T.map Prod.fst).Nodup) := by
  induction ls with
  | nil =>
    intro deps touts D T h
    rw [scanLines] at h
    cases h
    exact ⟨by simp [depTokens], fun d => rfl, fun hn => hn⟩
  | cons l rest ih =>
    intro deps touts D T h
    rw [scanLines] at h
    by_cases hdep : substrIn l depPat = true
    · cases hdtok : storeTokenDep l with
      | none =>
        rw [scanStep_shape_deperr deps touts l hdep hdtok] at h
        cases h
      | some tok =>
        by_cases htoutp : substrIn l toutPat = true
        · cases httok : storeTokenTout l with
          | none =>
            rw [scanStep_shape_touterr1 deps touts l tok hdep hdtok htoutp httok] at h
            cases h
          | some tok2 =>
            rw [scanStep_shape_both deps touts l tok tok2 hdep hdtok htoutp httok] at h
            obtain ⟨h1, h2, h3⟩ := ih _ _ _ _ h
            refine ⟨?_, ?_, ?_⟩
            · rw [h1]
              simp [depTokens, List.filterMap_cons, hdep, hdtok]
            · intro d
              rw [h2 d]
              unfold lastMatch
              rw [List.foldl_cons]
              by_cases hd : d = tok2
              · subst hd
                rw [lookupA_upsertA_self,
                  if_pos (show toutMatch d l = true from by simp [toutMatch, htoutp, httok])]
              · rw [lookupA_upsertA_ne touts tok2 d l hd,
                  if_neg (notMatch_of_other_token d l tok2 httok hd)]
            · intro hn
              exact h3 (keys_nodup_upsertA touts tok2 l hn)
        · rw [scanStep_shape_dep deps touts l tok hdep hdtok htoutp] at h
          obtain ⟨h1, h2, h3⟩ := ih _ _ _ _ h
          refine ⟨?_, ?_, h3⟩
          · rw [h1]
            simp [depTokens, List.filterMap_cons, hdep, hdtok]
          · intro d
            rw [h2 d]
            unfold lastMatch
            rw [List.foldl_cons,
              if_neg (show ¬toutMatch d l = true from by simp [toutMatch, htoutp])]
    · by_cases htoutp : substrIn l toutPat = true
      · cases httok : storeTokenTout l with
        | none =>
          rw [scanStep_shape_touterr2 deps touts l hdep htoutp httok] at h
          cases h
        | some tok2 =>
          rw [scanStep_shape_tout deps touts l tok2 hdep htoutp httok] at h
          obtain ⟨h1, h2, h3⟩ := ih _ _ _ _ h
          refine ⟨?_, ?_, ?_⟩
          · rw [h1]
            simp [depTokens, List.filterMap_cons, hdep]
          · intro d
            rw [h2 d]
            unfold lastMatch
            rw [List.foldl_cons]
            by_cases hd : d = tok2
            · subst hd
              rw [lookupA_upsertA_self,
                if_pos (show toutMatch d l = true from by simp [toutMatch, htoutp, httok])]
            · rw [lookupA_upsertA_ne touts tok2 d l hd,
                if_neg (notMatch_of_other_token d l tok2 httok hd)]
          · intro hn
            exact h3 (keys_nodup_upsertA touts tok2 l hn)
      · rw [scanStep_shape_skip deps touts l hdep htoutp] at h
        obtain ⟨h1, h2, h3⟩ := ih _ _ _ _ h
        refine ⟨?_, ?_, h3⟩
        · rw [h1]
          simp [depTokens, List.filterMap_cons, hdep]
        · intro d
          rw [h2 d]
          unfold lastMatch
          rw [List.foldl_cons,
            if_neg (show ¬toutMatch d l = true from by simp [toutMatch, htoutp])]

theorem lastMatch_const (p : String → Bool) (L : String) :
    ∀ ls : List String, (∀ l ∈ ls, p l = true → l = L) →
    lastMatch p ls (some L) = some L := by
  intro ls
  induction ls with
  | nil => intro _; rfl
  | cons l rest ih =>
    intro hall
    unfold lastMatch
    rw [List.foldl_cons]
    by_cases hp : p l = true
    · rw [if_pos hp, hall l (List.mem_cons_self l rest) hp]
      exact ih (fun x hx hpx => hall x (List.mem_cons_of_mem l hx) hpx)
    · rw [if_neg hp]
      exact ih (fun x hx hpx => hall x (List.mem_cons_of_mem l hx) hpx)

theorem lastMatch_unique (p : String → Bool) (L : String) :
    ∀ ls : List String, L ∈ ls → p L = true →
    (∀ l ∈ ls, p l = true → l = L) →
    ∀ init : Option String, (init = none ∨ init = some L) →
    lastMatch p ls init = some L := by
  intro ls
  induction ls with
  | nil => intro hmem; cases hmem
  | cons l rest ih =>
    intro hmem hpL hall init hinit
    unfold lastMatch
    rw [List.foldl_cons]
    rcases List.mem_cons.mp hmem with rfl | hmem2
    · rw [if_pos hpL]
      exact lastMatch_const p L rest
        (fun x hx hpx => hall x (List.mem_cons_of_mem L hx) hpx)
    · by_cases hp : p l = true
      · rw [if_pos hp, hall l (List.mem_cons_self l rest) hp]
        exact lastMatch_const p L rest
          (fun x hx hpx => hall x (List.mem_cons_of_mem l hx) hpx)
      · rw [if_neg hp]
        exact ih hmem2 hpL
          (fun x hx hpx => hall x (List.mem_cons_of_mem l hx) hpx) init hinit

theorem lastDrvIdx_some_mem (d : String) :
    ∀ (attrs : List Attr) (j : Nat), lastDrvIdx attrs d = some j →
    ∃ b ∈ attrs, b.drv_path = some d := by
  intro attrs
  induction attrs with
  | nil => intro j h; cases h
  | cons a as ih =>
    intro j h
    rw [lastDrvIdx] at h
    cases hj : lastDrvIdx as d with
    | some j2 =>
      obtain ⟨b, hb, hbd⟩ := ih j2 hj
      exact ⟨b, List.mem_cons_of_mem a hb, hbd⟩
    | none =>
      rw [hj] at h
      by_cases had : a.drv_path = some d
      · exact ⟨a, List.mem_cons_self a as, had⟩
      · rw [if_neg had] at h
        cases h

theorem lastDrvIdx_none_iff (d : String) :
    ∀ attrs : List Attr,
    lastDrvIdx attrs d = none ↔ ∀ a ∈ attrs, a.drv_path ≠ some d := by
  intro attrs
  induction attrs with
  | nil => simp [lastDrvIdx]
  | cons a as ih =>
    rw [lastDrvIdx]
    cases hj : lastDrvIdx as d with
    | some j =>
      simp only [reduceCtorEq, false_iff, not_forall]
      obtain ⟨b, hb, hbd⟩ := lastDrvIdx_some_mem d as j hj
      exact ⟨b, List.mem_cons_of_mem a hb, by simp [hbd]⟩
    | none =>
      by_cases had : a.drv_path = some d
      · rw [if_pos had]
        simp only [reduceCtorEq, false_iff, not_forall]
        exact ⟨a, List.mem_cons_self a as, by simp [had]⟩
      · rw [if_neg had]
        simp only [true_iff]
        intro b hb
        rcases List.mem_cons.mp hb with rfl | hb2
        · exact had
        · exact ih.mp hj b hb2

theorem drvNodup_tail (a : Attr) (as : List Attr)
    (h : ((a :: as).filterMap Attr.drv_path).Nodup) :
    (as.filterMap Attr.drv_path).Nodup := by
  cases hd : a.drv_path with
  | none => simpa [List.filterMap_cons, hd] using h
  | some d =>
    simp only [List.filterMap_cons, hd, List.nodup_cons] at h
    exact h.2

theorem single_update_eq_map (f : Attr → Attr) (d : String) :
    ∀ attrs : List Attr, (attrs.filterMap Attr.drv_path).Nodup →
    (match lastDrvIdx attrs d with
     | some i => setAt attrs i f
     | none => attrs)
      = attrs.map (fun a => if a.drv_path = some d then f a else a) := by
  intro attrs
  induction attrs with
  | nil => intro _; rfl
  | cons a as ih =>
    intro hnd
    have hmapid : ∀ l : List Attr, (∀ b ∈ l, b.drv_path ≠ some d) →
        l.map (fun b => if b.drv_path = some d then f b else b) = l := by
      intro l hl
      rw [List.map_congr_left (fun b hb => if_neg (hl b hb))]
      exact List.map_id l
    rw [lastDrvIdx]
    cases hj : lastDrvIdx as d with
    | some j =>
      obtain ⟨b, hb, hbd⟩ := lastDrvIdx_some_mem d as j hj
      have hads : a.drv_path ≠ some d := by
        intro hc
        simp only [List.filterMap_cons, hc, List.nodup_cons] at hnd
        exact hnd.1 (List.mem_filterMap.mpr ⟨b, hb, hbd⟩)
      have htail : setAt as j f
          = as.map (fun b => if b.drv_path = some d then f b else b) := by
        have := ih (drvNodup_tail a as hnd)
        rw [hj] at this
        exact this
      show setAt (a :: as) (j + 1) f = _
      rw [setAt, List.map_cons, if_neg hads, htail]
    | none =>
      by_cases had : a.drv_path = some d
      · rw [if_pos had]
        show setAt (a :: as) 0 f = _
        rw [setAt, List.map_cons, if_pos had,
          hmapid as ((lastDrvIdx_none_iff d as).mp hj)]
      · rw [if_neg had]
        show a :: as = _
        rw [List.map_cons, if_neg had, hmapid as ((lastDrvIdx_none_iff d as).mp hj)]

theorem filterMap_drv_of_pres (g : Attr → Attr)
    (hpres : ∀ a, (g a).drv_path = a.drv_path) (attrs : List Attr) :
    (attrs.map g).filterMap Attr.drv_path = attrs.filterMap Attr.drv_path := by
  rw [List.filterMap_map]
  rw [show Attr.drv_path ∘ g = Attr.drv_path from funext hpres]

/-- Pointwise effect of the first correlation loop on one attr: the entry
of the timeout dict for its derivation path, if any, is applied. -/
def toutSpec (T : List (String × String)) (a : Attr) : Attr :=
  match a.drv_path with
  | some d =>
    match lookupA T d with
    | some line => toutUpd line a
    | none => a
  | none => a

/-- Pointwise effect of the second correlation loop on one attr. -/
def depSpec (stderr : String) (anyT : Bool) (deps : List String) (a : Attr) : Attr :=
  match a.drv_path with
  | some d => if d ∈ deps then depUpd stderr anyT a else a
  | none => a

theorem toutSpec_drv (T : List (String × String)) (a : Attr) :
    (toutSpec T a).drv_path = a.drv_path := by
  unfold toutSpec
  cases hd : a.drv_path with
  | none => exact hd
  | some d =>
    show (match lookupA T d with
          | some line => toutUpd line a
          | none => a).drv_path = some d
    cases hl : lookupA T d with
    | none => exact hd
    | some line => exact hd

theorem applyTouts_eq_map :
    ∀ (T : List (String × String)) (attrs : List Attr),
    (attrs.filterMap Attr.drv_path).Nodup → (T.map Prod.fst).Nodup →
    applyTouts attrs T = attrs.map (toutSpec T) := by
  intro T
  induction T with
  | nil =>
    intro attrs _ _
    show attrs = _
    rw [List.map_congr_left (fun a _ => show toutSpec [] a = id a from by
      unfold toutSpec
      cases hd : a.drv_path with
      | none => rfl
      | some d => rfl), List.map_id]
  | cons dl rest ih =>
    intro attrs hdrv hkeys
    obtain ⟨d0, line0⟩ := dl
    simp only [List.map_cons, List.nodup_cons] at hkeys
    have hg0pres : ∀ a : Attr,
        ((fun a => if a.drv_path = some d0 then toutUpd line0 a else a) a).drv_path
          = a.drv_path := by
      intro a
      by_cases had : a.drv_path = some d0
      · simp only [if_pos had]
        rfl
      · simp only [if_neg had]
    have hstep : applyToutStep attrs (d0, line0)
        = attrs.map (fun a => if a.drv_path = some d0 then toutUpd line0 a else a) := by
      unfold applyToutStep
      exact single_update_eq_map (toutUpd line0) d0 attrs hdrv
    unfold applyTouts
    rw [List.foldl_cons]
    have hrest : List.foldl applyToutStep (applyToutStep attrs (d0, line0)) rest
        = applyTouts (applyToutStep attrs (d0, line0)) rest := rfl
    rw [hrest, hstep,
      ih _ (by rw [filterMap_drv_of_pres _ hg0pres]; exact hdrv) hkeys.2,
      List.map_map]
    apply List.map_congr_left
    intro a _
    show toutSpec rest (if a.drv_path = some d0 then toutUpd line0 a else a)
      = toutSpec ((d0, line0) :: rest) a
    by_cases had : a.drv_path = some d0
    · rw [if_pos had]
      have h1 : lookupA rest d0 = none := (lookupA_eq_none_iff rest d0).mpr hkeys.1
      have h2 : lookupA ((d0, line0) :: rest) d0 = some line0 := by
        rw [lookupA_cons, if_pos rfl]
      simp only [toutSpec, show (toutUpd line0 a).drv_path = a.drv_path from rfl,
        had, h1, h2]
    · rw [if_neg had]
      cases hd : a.drv_path with
      | none => simp only [toutSpec, hd]
      | some d =>
        have hdd0 : d ≠ d0 := fun hc => had (hc ▸ hd)
        have h2 : lookupA ((d0, line0) :: rest) d = lookupA rest d := by
          rw [lookupA_cons, if_neg (fun hc => hdd0 hc.symm)]
        simp only [toutSpec, hd, h2]

theorem depSpec_drv (stderr : String) (anyT : Bool) (deps : List String) (a : Attr) :
    (depSpec stderr anyT deps a).drv_path = a.drv_path := by
  unfold depSpec
  cases hd : a.drv_path with
  | none => exact hd
  | some d =>
    show (if d ∈ deps then depUpd stderr anyT a else a).drv_path = some d
    by_cases hmem : d ∈ deps
    · rw [if_pos hmem]
      exact hd
    · rw [if_neg hmem]
      exact hd

theorem depUpd_idem (stderr : String) (anyT : Bool) (a : Attr) :
    depUpd stderr anyT (depUpd stderr anyT a) = depUpd stderr anyT a := by
  unfold depUpd
  cases anyT <;> simp

theorem applyDeps_eq_map (stderr : String) (anyT : Bool) :
    ∀ (deps : List String) (attrs : List Attr),
    (attrs.filterMap Attr.drv_path).Nodup →
    applyDeps stderr anyT attrs deps = attrs.map (depSpec stderr anyT deps) := by
  intro deps
  induction deps with
  | nil =>
    intro attrs _
    show attrs = _
    rw [List.map_congr_left (fun a _ => show depSpec stderr anyT [] a = id a from by
      unfold depSpec
      cases hd : a.drv_path with
      | none => rfl
      | some d => simp), List.map_id]
  | cons d0 rest ih =>
    intro attrs hdrv
    have hg0pres : ∀ a : Attr,
        ((fun a => if a.drv_path = some d0 then depUpd stderr anyT a else a) a).drv_path
          = a.drv_path := by
      intro a
      by_cases had : a.drv_path = some d0
      · simp only [if_pos had]
        rfl
      · simp only [if_neg had]
    have hstep : applyDepStep stderr anyT attrs d0
        = attrs.map (fun a => if a.drv_path = some d0 then depUpd stderr anyT a else a) := by
      unfold applyDepStep
      exact single_update_eq_map (depUpd stderr anyT) d0 attrs hdrv
    unfold applyDeps
    rw [List.foldl_cons]
    have hrest : List.foldl (applyDepStep stderr anyT)
        (applyDepStep stderr anyT attrs d0) rest
        = applyDeps stderr anyT (applyDepStep stderr anyT attrs d0) rest := rfl
    rw [hrest, hstep,
      ih _ (by rw [filterMap_drv_of_pres _ hg0pres]; exact hdrv),
      List.map_map]
    apply List.map_congr_left
    intro a _
    show depSpec stderr anyT rest (if a.drv_path = some d0 then depUpd stderr anyT a else a)
      = depSpec stderr anyT (d0 :: rest) a
    by_cases had : a.drv_path = some d0
    · rw [if_pos had]
      by_cases hmem : d0 ∈ rest
      · simp only [depSpec, show (depUpd stderr anyT a).drv_path = a.drv_path from rfl,
          had, if_pos hmem, if_pos (List.mem_cons_self d0 rest)]
        exact depUpd_idem stderr anyT a
      · simp only [depSpec, show (depUpd stderr anyT a).drv_path = a.drv_path from rfl,
          had, if_neg hmem, if_pos (List.mem_cons_self d0 rest)]
    · rw [if_neg had]
      cases hd : a.drv_path with
      | none => simp only [depSpec, hd]
      | some d =>
        have hdd0 : d ≠ d0 := fun hc => had (hc ▸ hd)
        simp only [depSpec, hd]
        exact if_congr (by simp [List.mem_cons, hdd0]) rfl rfl

/-- C5: in a diagnostic stream, a line containing "timed out after" with
a `/nix/store` token marks the target whose recipe identifier equals the
extracted token as timed out and records the line as its build error
text; and since a timeout occurred in the batch, every target matched by
a "dependencies couldn't be built" line is also marked as timed out.
Recipe identifiers are unique (the resolver dedups by output), the
timeout token is extracted by exactly one timeout line, and no
dependency-failure line extracts it (otherwise its error text would be
overwritten by the full stderr). -/
theorem nix_build_diag_correlation
    (buildStderr : String) (attrs attrs' : List Attr)
    (hdrv : (attrs.filterMap Attr.drv_path).Nodup)
    (hok : nix_build_correlate buildStderr attrs = .ok attrs')
    (L t : String) (i : Nat) (a : Attr)
    (hL : L ∈ splitlines buildStderr)
    (htrig : substrIn L toutPat = true)
    (htok : storeTokenTout L = some t)
    (huniq : ∀ L2 ∈ splitlines buildStderr,
      substrIn L2 toutPat = true → storeTokenTout L2 = some t → L2 = L)
    (hnodep : t ∉ depTokens (splitlines buildStderr))
    (ha : attrs[i]? = some a) (hat : a.drv_path = some t) :
    attrs'[i]? = some { a with build_err_msg := some L, timed_out := true } ∧
    (∀ (j : Nat) (b : Attr) (d L2 : String),
      attrs[j]? = some b → b.drv_path = some d →
      L2 ∈ splitlines buildStderr → substrIn L2 depPat = true →
      storeTokenDep L2 = some d →
      ∃ b', attrs'[j]? = some b' ∧ b'.timed_out = true) := by
  unfold nix_build_correlate at hok
  cases hscan : scanLines [] [] (splitlines buildStderr) with
  | error e => rw [hscan] at hok; cases hok
  | ok pair =>
    obtain ⟨D, T⟩ := pair
    rw [hscan] at hok
    have hattrs' : attrs' = applyDeps buildStderr (!T.isEmpty) (applyTouts attrs T) D := by
      cases hok
      rfl
    obtain ⟨hD, hT, hTn⟩ := scanLines_spec (splitlines buildStderr) [] [] D T hscan
    have hTkeys : (T.map Prod.fst).Nodup := hTn (by simp)
    have hlookup : lookupA T t = some L := by
      rw [hT t]
      exact lastMatch_unique (toutMatch t) L (splitlines buildStderr) hL
        (by simp [toutMatch, htrig, htok])
        (fun l hl hp => by
          simp only [toutMatch, Bool.and_eq_true, beq_iff_eq] at hp
          exact huniq l hl hp.1 hp.2)
        (lookupA [] t) (Or.inl rfl)
    have hTne : ¬T.isEmpty = true := by
      intro hc
      rw [List.isEmpty_iff.mp hc] at hlookup
      cases hlookup
    have hanyT : (!T.isEmpty) = true := by
      cases hc : T.isEmpty with
      | true => exact absurd hc hTne
      | false => rfl
    have hdrv1 : ((attrs.map (toutSpec T)).filterMap Attr.drv_path).Nodup := by
      rw [filterMap_drv_of_pres _ (toutSpec_drv T)]
      exact hdrv
    have hDmem : t ∉ D := by
      rw [hD]
      simpa using hnodep
    rw [hattrs', applyTouts_eq_map T attrs hdrv hTkeys,
      applyDeps_eq_map buildStderr (!T.isEmpty) D _ hdrv1, List.map_map]
    constructor
    · rw [List.getElem?_map, ha]
      simp only [Option.map_some', Option.some.injEq]
      show depSpec buildStderr (!T.isEmpty) D (toutSpec T a) = _
      have h1 : toutSpec T a = toutUpd L a := by
        simp only [toutSpec, hat, hlookup]
      rw [h1]
      have h2 : (toutUpd L a).drv_path = some t := hat
      simp only [depSpec, h2]
      rw [if_neg hDmem]
      rfl
    · intro j b d L2 hb hbd hL2 htr htk
      refine ⟨depSpec buildStderr (!T.isEmpty) D (toutSpec T b), ?_, ?_⟩
      · rw [List.getElem?_map, hb]
        rfl
      · have hdD : d ∈ D := by
          rw [hD]
          simp only [List.nil_append]
          exact List.mem_filterMap.mpr ⟨L2, hL2, by rw [if_pos htr, htk]⟩
        have hdrvspec : (toutSpec T b).drv_path = some d := by
          rw [toutSpec_drv]
          exact hbd
        simp only [depSpec, hdrvspec, if_pos hdD]
        unfold depUpd
        simp [hanyT]

/-- The timeout diagnostic line of the C5 witness. -/
def toutLineW : String :=
  "error: build of \x27/nix/store/xxx.drv\x27 timed out after 3600 seconds"

/-- The dependency-failure diagnostic line of the C5 witness. -/
def depLineW : String :=
  "error: build of \x27/nix/store/yyy.drv\x27: 2 dependencies couldn\x27t be built"

/-- The diagnostic stream of the C5 witness. -/
def stderrW : String := toutLineW ++ "\n" ++ depLineW ++ "\n"

/-- The target owning the timed-out derivation. -/
def attrXW : Attr :=
  { name := "x"
    exists_ := true
    broken := false
    blacklisted := false
    skipped := false
    path := some "/nix/store/out-x"
    drv_path := some "/nix/store/xxx.drv"
    position := none }

/-- The target whose dependencies could not be built. -/
def attrYW : Attr :=
  { attrXW with
    name := "y"
    path := some "/nix/store/out-y"
    drv_path := some "/nix/store/yyy.drv" }

/-- The correlated list obtained from `stderrW`. -/
def correlOutW : List Attr :=
  [{ attrXW with build_err_msg := some toutLineW, timed_out := true },
   { attrYW with build_err_msg := some stderrW, timed_out := true }]

/-- Witness for C5 at the concrete diagnostic stream `stderrW`. -/
theorem nix_build_diag_correlation_witness :
    toutLineW ∈ splitlines stderrW ∧
    ([attrXW, attrYW].filterMap Attr.drv_path).Nodup ∧
    (correlOutW[0]? = some { attrXW with build_err_msg := some toutLineW, timed_out := true } ∧
     (∀ (j : Nat) (b : Attr) (d L2 : String),
        [attrXW, attrYW][j]? = some b → b.drv_path = some d →
        L2 ∈ splitlines stderrW → substrIn L2 depPat = true →
        storeTokenDep L2 = some d →
        ∃ b', correlOutW[j]? = some b' ∧ b'.timed_out = true)) :=
  ⟨by decide, by decide,
   nix_build_diag_correlation stderrW [attrXW, attrYW] correlOutW (by decide) rfl
     toutLineW "/nix/store/xxx.drv" 0 attrXW (by decide) (by decide) (by decide)
     (by decide) (by decide) (by decide) (by decide)⟩

/-! ## C3: dedup by output path in the Target Resolver -/

/-- The requested names whose evaluation record resolves to output path
`p`, in request order. -/
def pathNames (json : List (String × Props)) (p : String) : List String :=
  json.filterMap (fun e => if e.2.path = some p then some e.1 else none)

/-- The requested names whose evaluation record has no output path, in
request order. -/
def noPathNames (json : List (String × Props)) : List String :=
  json.filterMap (fun e => if e.2.path = none then some e.1 else none)

/-- The first name of minimal length in a list — the claim-side "shortest
name, ties broken in favour of the name encountered first". -/
def firstShortest : List String → Option String
  | [] => none
  | n :: ns =>
    match firstShortest ns with
    | none => some n
    | some c => some (if n.length ≤ c.length then n else c)

theorem firstShortest_eq_none_iff (ns : List String) :
    firstShortest ns = none ↔ ns = [] := by
  cases ns with
  | nil => simp [firstShortest]
  | cons n ns =>
    rw [firstShortest]
    cases h : firstShortest ns with
    | none => simp
    | some c => simp

theorem firstShortest_mem : ∀ (ns : List String) (c : String),
    firstShortest ns = some c → c ∈ ns := by
  intro ns
  induction ns with
  | nil => intro c h; cases h
  | cons n ns ih =>
    intro c h
    rw [firstShortest] at h
    cases h2 : firstShortest ns with
    | none =>
      rw [h2] at h
      cases h
      exact List.mem_cons_self n ns
    | some c2 =>
      rw [h2] at h
      cases h
      by_cases hle : n.length ≤ c2.length
      · rw [if_pos hle]
        exact List.mem_cons_self n ns
      · rw [if_neg hle]
        exact List.mem_cons_of_mem n (ih c2 h2)

theorem firstShortest_minimal : ∀ (ns : List String) (c : String),
    firstShortest ns = some c → ∀ m ∈ ns, c.length ≤ m.length := by
  intro ns
  induction ns with
  | nil => intro c h; cases h
  | cons n ns ih =>
    intro c h m hm
    rw [firstShortest] at h
    cases h2 : firstShortest ns with
    | none =>
      rw [h2] at h
      cases h
      rcases List.mem_cons.mp hm with rfl | hm2
      · exact Nat.le_refl _
      · have hnil : ns = [] := (firstShortest_eq_none_iff ns).mp h2
        subst hnil
        cases hm2
    | some c2 =>
      rw [h2] at h
      cases h
      rcases List.mem_cons.mp hm with rfl | hm2
      · by_cases hle : m.length ≤ c2.length
        · rw [if_pos hle]
        · rw [if_neg hle]
          exact Nat.le_of_lt (Nat.lt_of_not_le hle)
      · by_cases hle : n.length ≤ c2.length
        · rw [if_pos hle]
          exact Nat.le_trans hle (ih c2 h2 m hm2)
        · rw [if_neg hle]
          exact ih c2 h2 m hm2

theorem firstShortest_first : ∀ (ns : List String) (c : String),
    firstShortest ns = some c →
    ∃ l1 l2, ns = l1 ++ c :: l2 ∧ ∀ m ∈ l1, c.length < m.length := by
  intro ns
  induction ns with
  | nil => intro c h; cases h
  | cons n ns ih =>
    intro c h
    rw [firstShortest] at h
    cases h2 : firstShortest ns with
    | none =>
      rw [h2] at h
      cases h
      exact ⟨[], ns, rfl, by simp⟩
    | some c2 =>
      rw [h2] at h
      cases h
      by_cases hle : n.length ≤ c2.length
      · rw [if_pos hle]
        exact ⟨[], ns, rfl, by simp⟩
      · rw [if_neg hle]
        obtain ⟨l1, l2, heq, hlt⟩ := ih c2 h2
        refine ⟨n :: l1, l2, by rw [heq, List.cons_append], ?_⟩
        intro m hm
        rcases List.mem_cons.mp hm with rfl | hm2
        · exact Nat.lt_of_not_le hle
        · exact hlt m hm2

theorem firstShortest_append_one (n : String) : ∀ ns : List String,
    firstShortest (ns ++ [n])
      = some (match firstShortest ns with
              | none => n
              | some c => if c.length ≤ n.length then c else n) := by
  intro ns
  induction ns with
  | nil => rfl
  | cons m ns ih =>
    show firstShortest (m :: (ns ++ [n])) = _
    rw [firstShortest, ih]
    cases h2 : firstShortest ns with
    | none =>
      have : ns = [] := (firstShortest_eq_none_iff ns).mp h2
      subst this
      show some (if m.length ≤ n.length then m else n)
        = some (if m.length ≤ n.length then m else n)
      rfl
    | some c =>
      conv_rhs => rw [firstShortest, h2]
      show some (if m.length ≤ (if c.length ≤ n.length then c else n).length
            then m else if c.length ≤ n.length then c else n)
          = some (if (if m.length ≤ c.length then m else c).length ≤ n.length
            then if m.length ≤ c.length then m else c else n)
      split_ifs <;> first | rfl | omega

theorem pathNames_append_one (done : List (String × Props)) (e : String × Props)
    (p : String) :
    pathNames (done ++ [e]) p
      = pathNames done p ++ (if e.2.path = some p then [e.1] else []) := by
  unfold pathNames
  rw [List.filterMap_append]
  congr 1
  by_cases h : e.2.path = some p
  · simp [List.filterMap_cons, h]
  · simp [List.filterMap_cons, h]

theorem noPathNames_append_one (done : List (String × Props)) (e : String × Props) :
    noPathNames (done ++ [e])
      = noPathNames done ++ (if e.2.path = none then [e.1] else []) := by
  unfold noPathNames
  rw [List.filterMap_append]
  congr 1
  by_cases h : e.2.path = none
  · simp [List.filterMap_cons, h]
  · simp [List.filterMap_cons, h]

theorem lookupA_some_mem {α : Type} (m : List (String × α)) (k : String) (v : α)
    (h : lookupA m k = some v) : (k, v) ∈ m := by
  unfold lookupA at h
  cases hf : m.find? (fun kv => kv.1 == k) with
  | none => rw [hf] at h; cases h
  | some kv =>
    rw [hf] at h
    simp only [Option.map_some', Option.some.injEq] at h
    have h1 : kv ∈ m := List.mem_of_find?_eq_some hf
    have h2 : kv.1 = k := by simpa using List.find?_some hf
    obtain ⟨k1, v1⟩ := kv
    simp only at h2 h
    subst h2
    subst h
    exact h1

theorem lookupA_append {α : Type} (l1 l2 : List (String × α)) (k : String) :
    lookupA (l1 ++ l2) k = (lookupA l1 k).or (lookupA l2 k) := by
  unfold lookupA
  rw [List.find?_append]
  cases h : l1.find? (fun kv => kv.1 == k) with
  | none => simp [h]
  | some kv => simp [h]

theorem mem_upsertA_iff {α : Type} (k : String) (v : α) :
    ∀ m : List (String × α), (m.map Prod.fst).Nodup → k ∈ m.map Prod.fst →
    ∀ pr : String × α, pr ∈ upsertA m k v ↔ pr = (k, v) ∨ (pr ∈ m ∧ pr.1 ≠ k) := by
  intro m
  induction m with
  | nil =>
    intro _ hk
    simp at hk
  | cons kv rest ih =>
    intro hnd hk pr
    simp only [List.map_cons, List.nodup_cons] at hnd
    by_cases hh : kv.1 = k
    · rw [upsertA, if_pos hh]
      constructor
      · intro hpr
        rcases List.mem_cons.mp hpr with rfl | hpr2
        · exact Or.inl rfl
        · refine Or.inr ⟨List.mem_cons_of_mem kv hpr2, fun hc => ?_⟩
          exact hnd.1 (hh ▸ hc ▸ List.mem_map_of_mem Prod.fst hpr2)
      · rintro (rfl | ⟨hpr, hne⟩)
        · exact List.mem_cons_self _ _
        · rcases List.mem_cons.mp hpr with rfl | hpr2
          · exact absurd hh hne
          · exact List.mem_cons_of_mem _ hpr2
    · rw [upsertA, if_neg hh]
      have hk2 : k ∈ rest.map Prod.fst := by
        rcases List.mem_cons.mp hk with hc | hc
        · exact absurd hc.symm hh
        · exact hc
      constructor
      · intro hpr
        rcases List.mem_cons.mp hpr with rfl | hpr2
        · exact Or.inr ⟨List.mem_cons_self _ _, hh⟩
        · rcases (ih hnd.2 hk2 pr).mp hpr2 with rfl | ⟨hm, hne⟩
          · exact Or.inl rfl
          · exact Or.inr ⟨List.mem_cons_of_mem _ hm, hne⟩
      · rintro (rfl | ⟨hpr, hne⟩)
        · exact List.mem_cons_of_mem _ ((ih hnd.2 hk2 (k, v)).mpr (Or.inl rfl))
        · rcases List.mem_cons.mp hpr with rfl | hpr2
          · exact List.mem_cons_self _ _
          · exact List.mem_cons_of_mem _ ((ih hnd.2 hk2 pr).mpr (Or.inr ⟨hpr2, hne⟩))

theorem evalStep_none (relpath : String → String) (st : EvalState) (e : String × Props)
    (h : e.2.path = none) :
    evalStep relpath st e
      = { st with broken := st.broken ++ [mkEvalAttr relpath e.1 e.2] } := by
  simp only [evalStep, h]

theorem evalStep_newpath (relpath : String → String) (st : EvalState)
    (e : String × Props) (p : String)
    (h : e.2.path = some p) (hlook : lookupA st.byPath p = none) :
    evalStep relpath st e
      = { st with byPath := st.byPath ++ [(p, mkEvalAttr relpath e.1 e.2)] } := by
  simp only [evalStep, h]
  rw [hlook]

theorem evalStep_replace (relpath : String → String) (st : EvalState)
    (e : String × Props) (p : String) (other : Attr)
    (h : e.2.path = some p) (hlook : lookupA st.byPath p = some other)
    (hgt : other.name.length > e.1.length) :
    evalStep relpath st e
      = { st with
          byPath := upsertA st.byPath p
            ({ mkEvalAttr relpath e.1 e.2 with
               aliases := (mkEvalAttr relpath e.1 e.2).aliases ++ [other.name] }) } := by
  simp only [evalStep, h]
  simp only [hlook]
  rw [if_pos (show other.name.length > (mkEvalAttr relpath e.1 e.2).name.length from hgt)]

theorem evalStep_keep (relpath : String → String) (st : EvalState)
    (e : String × Props) (p : String) (other : Attr)
    (h : e.2.path = some p) (hlook : lookupA st.byPath p = some other)
    (hle : ¬other.name.length > e.1.length) :
    evalStep relpath st e
      = { st with
          byPath := upsertA st.byPath p
            ({ other with aliases := other.aliases ++ [e.1] }) } := by
  simp only [evalStep, h]
  simp only [hlook]
  rw [if_neg (show ¬(mkEvalAttr relpath e.1 e.2).name.length < other.name.length from hle)]

/-- The loop invariant of `_nix_eval_filter`, over the processed prefix
`done` of the input: keys of `attr_by_path` are distinct; each champion
resolves to its key path, carries the first shortest name seen for that
path so far, and only records aliases that map to its path; paths without
a champion have not been seen; `broken` collects exactly the entries
without an output path, in order. -/
def EvalInv (done : List (String × Props)) (st : EvalState) : Prop :=
  ((st.byPath.map Prod.fst).Nodup) ∧
  (∀ pr ∈ st.byPath, pr.2.path = some pr.1 ∧
      firstShortest (pathNames done pr.1) = some pr.2.name ∧
      (∀ n ∈ pr.2.aliases, n ∈ pathNames done pr.1)) ∧
  (∀ p : String, lookupA st.byPath p = none → pathNames done p = []) ∧
  (st.broken.map Attr.name = noPathNames done) ∧
  (∀ a ∈ st.broken, a.path = none)

theorem evalInv_init : EvalInv [] ⟨[], []⟩ :=
  ⟨by simp, by simp, fun p _ => rfl, rfl, by simp⟩

theorem evalStep_inv (relpath : String → String) (done : List (String × Props))
    (e : String × Props) (st : EvalState) (h : EvalInv done st) :
    EvalInv (done ++ [e]) (evalStep relpath st e) := by
  obtain ⟨h1, h2, h3, h4, h5⟩ := h
  cases hpath : e.2.path with
  | none =>
    rw [evalStep_none relpath st e hpath]
    refine ⟨h1, ?_, ?_, ?_, ?_⟩
    · intro pr hpr
      obtain ⟨ha, hb, hc⟩ := h2 pr hpr
      have hnp : pathNames (done ++ [e]) pr.1 = pathNames done pr.1 := by
        rw [pathNames_append_one, if_neg (by rw [hpath]; simp), List.append_nil]
      exact ⟨ha, by rw [hnp]; exact hb, fun n hn => by rw [hnp]; exact hc n hn⟩
    · intro p hp
      rw [pathNames_append_one, if_neg (by rw [hpath]; simp), List.append_nil]
      exact h3 p hp
    · show (st.broken ++ [mkEvalAttr relpath e.1 e.2]).map Attr.name = _
      rw [List.map_append, h4, noPathNames_append_one, if_pos hpath]
      rfl
    · intro a ha2
      rcases List.mem_append.mp ha2 with hm | hm
      · exact h5 a hm
      · rw [List.mem_singleton] at hm
        subst hm
        exact hpath
  | some p =>
    have hsame : ∀ q : String, q ≠ p →
        pathNames (done ++ [e]) q = pathNames done q := by
      intro q hq
      rw [pathNames_append_one,
        if_neg (by rw [hpath]; simp; exact fun hc => hq hc.symm), List.append_nil]
    have hnew : pathNames (done ++ [e]) p = pathNames done p ++ [e.1] := by
      rw [pathNames_append_one, if_pos (by rw [hpath])]
    have hbrok : noPathNames (done ++ [e]) = noPathNames done := by
      rw [noPathNames_append_one, if_neg (by rw [hpath]; simp), List.append_nil]
    cases hlook : lookupA st.byPath p with
    | none =>
      rw [evalStep_newpath relpath st e p hpath hlook]
      have hpnot : p ∉ st.byPath.map Prod.fst := (lookupA_eq_none_iff _ p).mp hlook
      refine ⟨?_, ?_, ?_, by rw [hbrok]; exact h4, h5⟩
      · rw [List.map_append, List.nodup_append]
        refine ⟨h1, by simp, ?_⟩
        intro x hx hx2
        simp only [List.map_cons, List.map_nil, List.mem_singleton] at hx2
        subst hx2
        exact hpnot hx
      · intro pr hpr
        rcases List.mem_append.mp hpr with hm | hm
        · obtain ⟨ha, hb, hc⟩ := h2 pr hm
          have hprp : pr.1 ≠ p := by
            intro hc2
            exact hpnot (hc2 ▸ List.mem_map_of_mem Prod.fst hm)
          rw [hsame pr.1 hprp]
          exact ⟨ha, hb, hc⟩
        · rw [List.mem_singleton] at hm
          subst hm
          refine ⟨hpath, ?_, ?_⟩
          · rw [hnew, h3 p hlook]
            rfl
          · intro n hn
            cases hn
      · intro q hq
        rw [lookupA_append] at hq
        cases hq1 : lookupA st.byPath q with
        | some v => rw [hq1] at hq; cases hq
        | none =>
          rw [hq1] at hq
          simp only [Option.or] at hq
          have hqp : q ≠ p := by
            intro hc
            subst hc
            rw [show lookupA [(q, mkEvalAttr relpath e.1 e.2)] q
                = some (mkEvalAttr relpath e.1 e.2) from by
              rw [lookupA_cons, if_pos rfl]] at hq
            cases hq
          rw [hsame q hqp]
          exact h3 q hq1
    | some other =>
      have hpmem : p ∈ st.byPath.map Prod.fst := by
        rw [← lookupA_isSome_iff]
        rw [hlook]
        rfl
      have hprmem : (p, other) ∈ st.byPath := lookupA_some_mem _ _ _ hlook
      obtain ⟨hop, hofs, hoal⟩ := h2 (p, other) hprmem
      by_cases hgt : other.name.length > e.1.length
      · rw [evalStep_replace relpath st e p other hpath hlook hgt]
        refine ⟨keys_nodup_upsertA _ _ _ h1, ?_, ?_, by rw [hbrok]; exact h4, h5⟩
        · intro pr hpr
          rcases (mem_upsertA_iff p _ st.byPath h1 hpmem pr).mp hpr with rfl | ⟨hm, hne⟩
          · refine ⟨hpath, ?_, ?_⟩
            · rw [hnew, firstShortest_append_one, hofs]
              show some (if other.name.length ≤ e.1.length then other.name else e.1)
                = some e.1
              rw [if_neg (Nat.not_le_of_lt hgt)]
            · intro n hn
              rcases List.mem_singleton.mp hn with rfl
              rw [hnew]
              exact List.mem_append_left _ (firstShortest_mem _ _ hofs)
          · obtain ⟨ha, hb, hc⟩ := h2 pr hm
            rw [hsame pr.1 hne]
            exact ⟨ha, hb, hc⟩
        · intro q hq
          by_cases hqp : q = p
          · subst hqp
            rw [lookupA_upsertA_self] at hq
            cases hq
          · rw [lookupA_upsertA_ne _ _ _ _ hqp] at hq
            rw [hsame q hqp]
            exact h3 q hq
      · rw [evalStep_keep relpath st e p other hpath hlook hgt]
        refine ⟨keys_nodup_upsertA _ _ _ h1, ?_, ?_, by rw [hbrok]; exact h4, h5⟩
        · intro pr hpr
          rcases (mem_upsertA_iff p _ st.byPath h1 hpmem pr).mp hpr with rfl | ⟨hm, hne⟩
          · refine ⟨hop, ?_, ?_⟩
            · rw [hnew, firstShortest_append_one, hofs]
              show some (if other.name.length ≤ e.1.length then other.name else e.1)
                = some other.name
              rw [if_pos (Nat.le_of_not_lt hgt)]
            · intro n hn
              rcases List.mem_append.mp hn with hn2 | hn2
              · rw [hnew]
                exact List.mem_append_left _ (hoal n hn2)
              · rcases List.mem_singleton.mp hn2 with rfl
                rw [hnew]
                exact List.mem_append_right _ (List.mem_singleton.mpr rfl)
          · obtain ⟨ha, hb, hc⟩ := h2 pr hm
            rw [hsame pr.1 hne]
            exact ⟨ha, hb, hc⟩
        · intro q hq
          by_cases hqp : q = p
          · subst hqp
            rw [lookupA_upsertA_self] at hq
            cases hq
          · rw [lookupA_upsertA_ne _ _ _ _ hqp] at hq
            rw [hsame q hqp]
            exact h3 q hq

theorem evalFold_inv (relpath : String → String) :
    ∀ (json done : List (String × Props)) (st : EvalState),
    EvalInv done st → EvalInv (done ++ json) (json.foldl (evalStep relpath) st) := by
  intro json
  induction json with
  | nil =>
    intro done st h
    simpa using h
  | cons e rest ih =>
    intro done st h
    rw [List.foldl_cons]
    have h3 := ih (done ++ [e]) _ (evalStep_inv relpath done e st h)
    rw [List.append_assoc] at h3
    simpa using h3

theorem nix_eval_filter_inv (relpath : String → String)
    (json : List (String × Props)) :
    EvalInv json (json.foldl (evalStep relpath) ⟨[], []⟩) := by
  have h := evalFold_inv relpath json [] ⟨[], []⟩ evalInv_init
  simpa using h

theorem vals_filter_le_one (p : String) :
    ∀ m : List (String × Attr), (m.map Prod.fst).Nodup →
    (∀ pr ∈ m, pr.2.path = some pr.1) →
    ((m.map Prod.snd).filter (fun a => decide (a.path = some p))).length ≤ 1 := by
  intro m
  induction m with
  | nil => intro _ _; simp
  | cons kv rest ih =>
    intro hnd hpaths
    obtain ⟨k, v⟩ := kv
    simp only [List.map_cons, List.nodup_cons] at hnd
    rw [List.map_cons, List.filter_cons]
    by_cases hvp : v.path = some p
    · have hkp : k = p := by
        have := hpaths (k, v) (List.mem_cons_self _ _)
        simp only at this
        rw [this] at hvp
        exact Option.some.inj hvp
      rw [if_pos (by simp [hvp])]
      have hrest : (rest.map Prod.snd).filter (fun a => decide (a.path = some p)) = [] := by
        rw [List.filter_eq_nil_iff]
        intro a ha
        obtain ⟨pr, hpr, hpr2⟩ := List.mem_map.mp ha
        have h2 := hpaths pr (List.mem_cons_of_mem _ hpr)
        have h3 : pr.1 ≠ p := by
          intro hc
          apply hnd.1
          have hmem : pr.1 ∈ rest.map Prod.fst := List.mem_map_of_mem Prod.fst hpr
          rwa [hc, ← hkp] at hmem
        simp only [decide_eq_true_eq]
        rw [← hpr2]
        rw [h2]
        exact fun hc => h3 (Option.some.inj hc)
      rw [hrest]
      simp
    · rw [if_neg (by simp [hvp])]
      exact ih hnd.2 (fun pr hpr => hpaths pr (List.mem_cons_of_mem _ hpr))

/-- C3 (amended): within one resolution pass at most one Target survives
per distinct output path; the surviving Target carries the first-shortest
requested name mapping to that path (shortest length, ties broken in
favour of the name encountered first); every alias it records is another
requested name mapping to the same path — but a name recorded as an alias
of an intermediate champion that is later replaced by a shorter name is
dropped and need not appear anywhere (see the counterexample); Targets
with no output path are never deduplicated and are all passed through, in
order. -/
theorem nix_eval_filter_dedup_amended (relpath : String → String)
    (json : List (String × Props)) :
    (∀ p : String,
      ((nix_eval_filter relpath json).filter
        (fun a => decide (a.path = some p))).length ≤ 1) ∧
    (∀ a ∈ nix_eval_filter relpath json, ∀ p : String, a.path = some p →
      firstShortest (pathNames json p) = some a.name ∧
      a.name ∈ pathNames json p ∧
      (∀ m ∈ pathNames json p, a.name.length ≤ m.length) ∧
      (∃ l1 l2, pathNames json p = l1 ++ a.name :: l2 ∧
        ∀ m ∈ l1, a.name.length < m.length) ∧
      (∀ n ∈ a.aliases, n ∈ pathNames json p)) ∧
    ((nix_eval_filter relpath json).filter
        (fun a => decide (a.path = none))).map Attr.name
      = noPathNames json := by
  obtain ⟨h1, h2, h3, h4, h5⟩ := nix_eval_filter_inv relpath json
  have hres : nix_eval_filter relpath json
      = ((json.foldl (evalStep relpath) ⟨[], []⟩).byPath.map Prod.snd)
        ++ (json.foldl (evalStep relpath) ⟨[], []⟩).broken := rfl
  refine ⟨?_, ?_, ?_⟩
  · intro p
    rw [hres, List.filter_append]
    have hb : (json.foldl (evalStep relpath) ⟨[], []⟩).broken.filter
        (fun a => decide (a.path = some p)) = [] := by
      rw [List.filter_eq_nil_iff]
      intro a ha
      simp only [decide_eq_true_eq]
      rw [h5 a ha]
      simp
    rw [hb, List.append_nil]
    exact vals_filter_le_one p _ h1 (fun pr hpr => (h2 pr hpr).1)
  · intro a ha p hap
    rw [hres] at ha
    rcases List.mem_append.mp ha with hm | hm
    · obtain ⟨pr, hpr, hpr2⟩ := List.mem_map.mp hm
      obtain ⟨hprp, hprf, hpra⟩ := h2 pr hpr
      have hp1 : pr.1 = p := by
        rw [hpr2] at hprp
        rw [hap] at hprp
        exact (Option.some.inj hprp).symm
      subst hp1
      rw [hpr2] at hprf hpra
      refine ⟨hprf, firstShortest_mem _ _ hprf, firstShortest_minimal _ _ hprf,
        firstShortest_first _ _ hprf, hpra⟩
    · rw [h5 a hm] at hap
      cases hap
  · rw [hres, List.filter_append]
    have hv : ((json.foldl (evalStep relpath) ⟨[], []⟩).byPath.map Prod.snd).filter
        (fun a => decide (a.path = none)) = [] := by
      rw [List.filter_eq_nil_iff]
      intro a ha
      obtain ⟨pr, hpr, hpr2⟩ := List.mem_map.mp ha
      simp only [decide_eq_true_eq]
      rw [← hpr2, (h2 pr hpr).1]
      simp
    have hbr : (json.foldl (evalStep relpath) ⟨[], []⟩).broken.filter
        (fun a => decide (a.path = none))
        = (json.foldl (evalStep relpath) ⟨[], []⟩).broken := by
      rw [List.filter_eq_self]
      intro a ha
      simp only [decide_eq_true_eq]
      exact h5 a ha
    rw [hv, hbr, List.nil_append]
    exact h4

/-- The shared evaluation record of the C3 counterexample: three names
resolving to the same output path. -/
def evalPropsP : Props :=
  { exists_ := true
    broken := false
    path := some "/nix/store/p"
    drvPath := some "/nix/store/p.drv"
    position := none }

/-- C3 counterexample: for the requested names "bb", "cc", "a" all
mapping to output path "/nix/store/p", the survivor is "a" (the shortest
name) but its aliases are only ["bb"]: the name "cc" had been recorded as
an alias of the intermediate champion "bb", and was dropped when "a"
replaced it — so not every other name mapping to the path appears in the
surviving Target's aliases, contrary to the claim. -/
theorem nix_eval_filter_alias_counterexample :
    pathNames [("bb", evalPropsP), ("cc", evalPropsP), ("a", evalPropsP)]
        "/nix/store/p" = ["bb", "cc", "a"] ∧
    (nix_eval_filter id [("bb", evalPropsP), ("cc", evalPropsP), ("a", evalPropsP)]).map
        (fun a => (a.name, a.aliases))
      = [("a", ["bb"])] := ⟨rfl, rfl⟩

/-- The surviving Target of the C3 example. -/
def survivorW : Attr :=
  { name := "a"
    exists_ := true
    broken := false
    blacklisted := false
    skipped := false
    path := some "/nix/store/p"
    drv_path := some "/nix/store/p.drv"
    position := none
    aliases := ["bb"] }

/-- Witness for C3 (amended) at the three-name example. -/
theorem nix_eval_filter_dedup_amended_witness :
    survivorW ∈ nix_eval_filter id [("bb", evalPropsP), ("cc", evalPropsP), ("a", evalPropsP)] ∧
    survivorW.path = some "/nix/store/p" ∧
    (firstShortest (pathNames [("bb", evalPropsP), ("cc", evalPropsP), ("a", evalPropsP)]
        "/nix/store/p") = some survivorW.name ∧
     survivorW.name ∈ pathNames [("bb", evalPropsP), ("cc", evalPropsP), ("a", evalPropsP)]
        "/nix/store/p" ∧
     (∀ m ∈ pathNames [("bb", evalPropsP), ("cc", evalPropsP), ("a", evalPropsP)]
        "/nix/store/p", survivorW.name.length ≤ m.length) ∧
     (∃ l1 l2, pathNames [("bb", evalPropsP), ("cc", evalPropsP), ("a", evalPropsP)]
        "/nix/store/p" = l1 ++ survivorW.name :: l2 ∧
        ∀ m ∈ l1, survivorW.name.length < m.length) ∧
     (∀ n ∈ survivorW.aliases,
        n ∈ pathNames [("bb", evalPropsP), ("cc", evalPropsP), ("a", evalPropsP)]
          "/nix/store/p")) :=
  ⟨by decide, by decide,
   (nix_eval_filter_dedup_amended id
      [("bb", evalPropsP), ("cc", evalPropsP), ("a", evalPropsP)]).2.1
     survivorW (by decide) "/nix/store/p" (by decide)⟩
